import Mathlib

/-!
# go-livingkit: a shallow embedding of the error-code, response, recovery,
# retry, token-extraction, HTTP-client and route-listing helpers

Go values are embedded as follows.

* `int` is `Int`; no arithmetic is performed on the codes and statuses, and
  the one increment of an `int`, the loop counter of `Retrying`, wraps around
  at 64 bits.
* `error` is `Option GoError`; `none` is the `nil` error.
* `interface{}` values are tagged variants (`GoValue`, `Payload`) that keep
  exactly the distinctions the type switches and type assertions of the source
  look at.
* a `panic` is the `Except.error` result, with the state at the panic.
* side effects (log lines, written responses, sleeping, invoking a callback)
  are recorded in an explicit state that is threaded through the functions.
* a regular expression is its syntax tree, matched by backtracking in the
  leftmost-first order of Go's `regexp`.
-/

namespace Livingkit

/-! ## Go errors -/

/-- One `validator.FieldError`: the accessors `ResponseError` prints, and the
text of its `Error()` method. -/
structure FieldError where
  tag : String
  actualTag : String
  param : String
  errText : String
  deriving DecidableEq, Repr

/-- Non-nil values of the Go interface `error`, by dynamic type:
`validator.ValidationErrors`, an error without an `Unwrap` method, and an error
whose `Unwrap` method gives an inner error. -/
inductive GoError where
  | validation (fes : List FieldError)
  | plain (text : String)
  | wrapped (text : String) (inner : GoError)
  deriving DecidableEq, Repr

/-- The `Error()` method. For `validator.ValidationErrors` the field texts are
written one per line and the result is trimmed. -/
def GoError.Error : GoError → String
  | .validation fes => ("\n".intercalate (fes.map FieldError.errText)).trim
  | .plain text => text
  | .wrapped text _ => text

/-- Go `errors.Unwrap`: the inner error when the dynamic type has `Unwrap`. -/
def errorsUnwrap : GoError → Option GoError
  | .wrapped _ inner => some inner
  | _ => none

/-! ## `gin/response.go`: ErrorCode -/

/-- The struct `ErrorCode` of `gin/response.go`, field by field. -/
structure ErrorCode where
  code : Int
  httpCode : Int
  message : String
  delimiter : String
  err : Option GoError
  deriving DecidableEq, Repr

/-- `NewErrorCode`: the delimiter is one blank, `err` keeps its zero value. -/
def NewErrorCode (code httpCode : Int) (message : String) : ErrorCode :=
  { code := code, httpCode := httpCode, message := message, delimiter := " ", err := none }

/-- `ErrorCode.SetDelimiter` (value receiver: `ec` is the callee's copy). -/
def ErrorCode.SetDelimiter (ec : ErrorCode) (delimiter : String) : ErrorCode :=
  { ec with delimiter := delimiter }

/-- `ErrorCode.WithMessage`; `fmt.Sprintf("%s%s%s", a, b, c)` is `a ++ b ++ c`. -/
def ErrorCode.WithMessage (ec : ErrorCode) (message : String) (replace : Bool) : ErrorCode :=
  if replace then
    { ec with message := message }
  else
    { ec with message := ec.message ++ ec.delimiter ++ message }

/-- `ErrorCode.WithError`: the cause is stored only when it is not nil. -/
def ErrorCode.WithError (ec : ErrorCode) (myerr : Option GoError) : ErrorCode :=
  match myerr with
  | some e => { ec with err := some e }
  | none => ec

/-- `ErrorCode.String`. -/
def ErrorCode.String (ec : ErrorCode) : String :=
  ec.message

/-- `http.StatusBadRequest`. -/
def StatusBadRequest : Int := 400

/-- `http.StatusInternalServerError`. -/
def StatusInternalServerError : Int := 500

/-- `gin/errorcode.go`. -/
def ErrInvalidRequestParams : ErrorCode :=
  NewErrorCode 1000 StatusBadRequest "invalid request params"

/-- `gin/errorcode.go`. -/
def ErrUnknownError : ErrorCode :=
  NewErrorCode 9999 StatusInternalServerError "unknown server internal error"

/-- One call of a builder method of `ErrorCode`, with its arguments. -/
inductive BuilderCall where
  | setDelimiter (delimiter : String)
  | withMessage (message : String) (replace : Bool)
  | withError (myerr : Option GoError)
  deriving DecidableEq, Repr

/-- The value a builder call returns for the receiver `ec`. -/
def BuilderCall.result (ec : ErrorCode) : BuilderCall → ErrorCode
  | .setDelimiter d => ec.SetDelimiter d
  | .withMessage m r => ec.WithMessage m r
  | .withError e => ec.WithError e

/-- A Go method call `recv.M(args)` on a variable holding `recv`, for a method
with a value receiver: the callee works on a copy, so the pair is
(the caller's variable after the call, the returned value). -/
def BuilderCall.invoke (recv : ErrorCode) (c : BuilderCall) : ErrorCode × ErrorCode :=
  (recv, c.result recv)

/-- A chain `ec.M1(..).M2(..)...`: every call is invoked on the value the
previous one returned. Gives the receivers as left behind by the calls, in
order, and the final value. -/
def runChain : ErrorCode → List BuilderCall → List ErrorCode × ErrorCode
  | ec, [] => ([], ec)
  | ec, c :: cs =>
    let (recvAfter, out) := c.invoke ec
    let (rest, final) := runChain out cs
    (recvAfter :: rest, final)

/-- The receivers of the calls of a chain, as they were before each call. -/
def chainReceivers : ErrorCode → List BuilderCall → List ErrorCode
  | _, [] => []
  | ec, c :: cs => ec :: chainReceivers (c.result ec) cs

/-! ## JSON encoding of Go values (`encoding/json`, as used by gin's `JSON` render) -/

/-- JSON documents. -/
inductive Json where
  | null
  | bool (b : Bool)
  | int (i : Int)
  | str (s : String)
  | arr (items : List Json)
  | obj (members : List (String × Json))
  deriving Repr

/-- The value held by a struct field, for the field types of `ErrorCode`. -/
inductive GoFieldValue where
  | int (i : Int)
  | string (s : String)
  | error (e : Option GoError)
  deriving DecidableEq, Repr

/-- A struct field as reflection sees it: declared name, the name given by a
`json:"..."` tag when the declaration has one, and the value. -/
structure StructField where
  name : String
  jsonTag : Option String
  value : GoFieldValue
  deriving DecidableEq, Repr

/-- Go exports an identifier exactly when its first character is upper case. -/
def isExported (name : String) : Bool :=
  match name.toList with
  | c :: _ => c.isUpper
  | [] => false

/-- JSON encoding of a non-nil error of the standard library or of the
validator package: their struct types have unexported fields only. -/
def GoError.toJson : GoError → Json
  | .validation fes => .arr (fes.map fun _ => .obj [])
  | .plain _ => .obj []
  | .wrapped _ _ => .obj []

/-- JSON encoding of a field value. -/
def GoFieldValue.toJson : GoFieldValue → Json
  | .int i => .int i
  | .string s => .str s
  | .error none => .null
  | .error (some e) => e.toJson

/-- `json.Marshal` on a struct value without a `MarshalJSON` method: one member
per exported field that is not tagged `-`, in declaration order, keyed by the
tag name when there is one and by the field name otherwise. Unexported fields
are skipped. -/
def jsonMarshalStruct (fields : List StructField) : Json :=
  .obj ((fields.filter fun f => isExported f.name && f.jsonTag != some "-").map
    fun f => (f.jsonTag.getD f.name, f.value.toJson))

/-- The fields of `ErrorCode` as declared in `gin/response.go`: none has a tag. -/
def ErrorCode.structFields (ec : ErrorCode) : List StructField :=
  [ { name := "code", jsonTag := none, value := .int ec.code },
    { name := "httpCode", jsonTag := none, value := .int ec.httpCode },
    { name := "message", jsonTag := none, value := .string ec.message },
    { name := "delimiter", jsonTag := none, value := .string ec.delimiter },
    { name := "err", jsonTag := none, value := .error ec.err } ]

/-- The JSON body gin renders for an `ErrorCode` value (the type declares no
`MarshalJSON`, so the struct encoder is used). -/
def ErrorCode.toJson (ec : ErrorCode) : Json :=
  jsonMarshalStruct ec.structFields

/-! ## `gin/response.go`: ResponseError -/

/-- Severity of a logrus line. -/
inductive LogLevel where
  | error
  | warning
  deriving DecidableEq, Repr

/-- One logrus call: level, format string and the arguments as text. -/
structure LogEntry where
  level : LogLevel
  format : String
  args : List String
  deriving DecidableEq, Repr

/-- The part of `*gin.Context` the response helpers touch: route and method
(read), the abort flag, the status held by the response writer (200 until a
positive status is set), the responses written so far (status and JSON body),
the statuses sent as a header without a body, and the log lines emitted so
far. -/
structure Context where
  fullPath : String
  method : String
  aborted : Bool
  status : Int
  written : List (Int × Json)
  headersOnly : List Int
  logs : List LogEntry
  deriving Repr

/-- `logrus.Errorf`. -/
def Context.Errorf (c : Context) (format : String) (args : List String) : Context :=
  { c with logs := c.logs ++ [{ level := .error, format := format, args := args }] }

/-- gin `bodyAllowedForStatus`: no body goes with the statuses 100 to 199, 204
and 304. -/
def bodyAllowedForStatus (status : Int) : Bool :=
  if 100 ≤ status ∧ status ≤ 199 then
    false
  else if status = 204 then
    false
  else if status = 304 then
    false
  else
    true

/-- The statuses `net/http` sends: `checkWriteHeaderCode` panics for a code
below 100 or above 999. -/
def validWriteHeaderCode (code : Int) : Bool :=
  !(decide (code < 100) || decide (code > 999))

/-- The panic of `net/http` for a status it does not send. -/
def invalidWriteHeaderCode (code : Int) : String :=
  "invalid WriteHeader code " ++ toString code

/-- `c.AbortWithStatusJSON(code, obj)`, on a writer that has not sent its header:
`c.Abort()`, then `c.JSON(code, obj)`. The writer of gin takes the status only
when it is positive, and keeps the status it holds otherwise. For a status
that allows no body the header alone is sent; else the body is written, which
sends the header first. Sending the header panics in `net/http` for a status
outside 100 to 999, with the chain aborted and nothing written. `body` is the
JSON encoding of `obj`. -/
def Context.AbortWithStatusJSON (c : Context) (code : Int) (body : Json) :
    Except (String × Context) Context :=
  let c1 : Context := { c with aborted := true }
  let c2 : Context := if code > 0 then { c1 with status := code } else c1
  if !validWriteHeaderCode c2.status then
    .error (invalidWriteHeaderCode c2.status, c2)
  else if !bodyAllowedForStatus code then
    .ok { c2 with headersOnly := c2.headersOnly ++ [c2.status] }
  else
    .ok { c2 with written := c2.written ++ [(c2.status, body)] }

/-- The argument `jsonObj interface{}` of `ResponseError`, by the outcome of the
type assertion `jsonObj.(ErrorCode)`: an `ErrorCode` value, or any other value
that `json.Marshal` encodes, given by its JSON encoding. -/
inductive Payload where
  | errorCode (ec : ErrorCode)
  | other (encoded : Json)
  deriving Repr

/-- The panic message of `ResponseError`. -/
def usagePanic : String :=
  "go-livingkit/usage: required one http code param at least if you want to customize error response format"

/-- `ResponseError(c, jsonObj, httpCode...)`; `debugging` is `gin.IsDebugging()`.
A panic is `Except.error`, carrying the panic message and the context as it
is when the panic starts. -/
def ResponseError (debugging : Bool) (c : Context) (jsonObj : Payload) (httpCode : List Int) :
    Except (String × Context) Context :=
  match jsonObj with
  | .errorCode code =>
    let c1 :=
      match code.err with
      | some err =>
        let c2 :=
          match err with
          | .validation fe =>
            if debugging then
              fe.foldl (fun (acc : Context) (value : FieldError) => acc.Errorf
                "parameter validation error: SNS: %s || ParamValue: %q || DefinedTag: %s(%s) || Type: %s"
                [value.actualTag, value.param, value.tag, value.actualTag, value.tag]) c
            else c
          | _ => c
        let c3 := c2.Errorf "Error on [%s - %s]: %+v" [c.fullPath, c.method, err.Error]
        match errorsUnwrap err with
        | some inner => c3.Errorf "Underlying error: %+v" [inner.Error]
        | none => c3
      | none => c
    c1.AbortWithStatusJSON code.httpCode code.toJson
  | .other encoded =>
    match httpCode with
    | [] => .error (usagePanic, c)
    | status :: _ => c.AbortWithStatusJSON status encoded

/-! ## `gin/middleware.go`: RecoverJSONResponse -/

/-- A value recovered from a panic (`interface{}`), by what the type switch of
`RecoverJSONResponse` can tell apart: an `ErrorCode` value, a value whose type
has an `Error() string` method (`validator.ValidationErrors` among them), and
any other value, given by its `%v` formatting. -/
inductive GoValue where
  | errorCode (ec : ErrorCode)
  | error (e : GoError)
  | other (formatted : String)
  deriving DecidableEq, Repr

/-- The recovery function `RecoverJSONResponse` hands to
`gin.CustomRecoveryWithWriter`. The function it calls in every branch,
`ResponseError`, is the parameter `respond`, so that the arguments of that call
can be told; the source is `RecoverJSONResponse (ResponseError debugging)`. The
cases are tried top to bottom, as in the type switch. `fmt.Errorf("%v", value)`
is an error without `Unwrap` whose text is the formatting of the value. -/
def RecoverJSONResponse {α : Type} (respond : Context → Payload → List Int → α) (c : Context)
    (err : GoValue) : α :=
  match err with
  | .error (.validation value) =>
    respond c (.errorCode (ErrInvalidRequestParams.WithError (some (.validation value)))) []
  | .errorCode value =>
    respond c (.errorCode value) []
  | .error underlyingErr =>
    respond c (.errorCode (ErrUnknownError.WithError (some underlyingErr))) []
  | .other formatted =>
    respond c (.errorCode (ErrUnknownError.WithError (some (.plain formatted)))) []

/-! ## `retrying.go` -/

/-- What `Retrying` does to its surroundings, in order of occurrence. -/
inductive RetryEvent where
  | invoke
  | warning (err : String) (i retryTimes sleepTimes : Int)
  | sleep (sleepTimes : Int)
  deriving DecidableEq, Repr

/-- The surroundings of a `Retrying` call: the state the operation reads and
writes, and the events so far. -/
structure RetryWorld (σ : Type) where
  state : σ
  events : List RetryEvent

/-- Number of invocations of the operation among the events. -/
def invocations (events : List RetryEvent) : Nat :=
  events.count .invoke

/-- Number of `time.Sleep` calls among the events. -/
def sleeps (events : List RetryEvent) : Nat :=
  (events.filter fun e => match e with
    | .sleep _ => true
    | _ => false).length

/-- The largest `int`, `math.MaxInt`, for the 64-bit `int`. -/
def maxInt : Int := 9223372036854775807

/-- The value of a 64-bit `int` computation whose exact result is `x`: the
result wraps around in two's complement. -/
def wrapInt (x : Int) : Int :=
  (x + 9223372036854775808) % 18446744073709551616 - 9223372036854775808

/-- The loop `for i := 1; i <= retryTimes; i++` of `Retrying`, entered with the
current `i` and `err`. The operation `retryFunc` is a closure: it gets the
state and gives back its error and the new state. The first argument bounds
the number of iterations; `none` means the bound was hit before the loop left.
The increment `i++` wraps around like every `int` addition. -/
def Retrying.loop {σ : Type} (retryTimes sleepTimes : Int) (retryFunc : σ → Option GoError × σ) :
    Nat → Int → Option GoError → RetryWorld σ → Option (Option GoError × RetryWorld σ)
  | 0, _, _, _ => none
  | fuel + 1, i, err, w =>
    if i ≤ retryTimes then
      match retryFunc w.state with
      | (some e, s) =>
        Retrying.loop retryTimes sleepTimes retryFunc fuel (wrapInt (i + 1)) (some e)
          { state := s,
            events := w.events ++ [.invoke, .warning e.Error i retryTimes sleepTimes, .sleep sleepTimes] }
      | (none, s) => some (none, { state := s, events := w.events ++ [.invoke] })
    else
      some (err, w)

/-- `Retrying(retryTimes, sleepTimes, retryFunc)`, started in the world `w`. The
loop is given `retryTimes + 1` iterations, one more than it takes whenever it
leaves; `none` means it has not left by then. -/
def Retrying {σ : Type} (retryTimes sleepTimes : Int) (retryFunc : σ → Option GoError × σ)
    (w : RetryWorld σ) : Option (Option GoError × RetryWorld σ) :=
  if retryTimes < 0 then
    some (some (.plain "invalid param, 'retryTimes' should be greater than 0"), w)
  else
    Retrying.loop retryTimes sleepTimes retryFunc (retryTimes.toNat + 1) 1
      (some (.plain ("retry error since oversize default times: " ++ toString retryTimes))) w

/-- The state after the first `j` invocations of the operation, from `s`. -/
def stateAfter {σ : Type} (retryFunc : σ → Option GoError × σ) (s : σ) : Nat → σ
  | 0 => s
  | j + 1 => (retryFunc (stateAfter retryFunc s j)).2

/-- The outcome of attempt `j + 1` of the operation, counted from the state `s`. -/
def outcome {σ : Type} (retryFunc : σ → Option GoError × σ) (s : σ) (j : Nat) : Option GoError :=
  (retryFunc (stateAfter retryFunc s j)).1

/-! ## `oauth2/jwt/jwt.go` -/

/-- An `http.Header`: canonical header names with their values. -/
abbrev HttpHeader := List (String × List String)

/-- `Header.Get` for a canonical name: the first value, or the empty string. -/
def HttpHeader.Get (h : HttpHeader) (key : String) : String :=
  match h.lookup key with
  | some (v :: _) => v
  | _ => ""

/-- The part of `*http.Request` the extractor reads. -/
structure Request where
  Header : HttpHeader

/-- `request.ErrNoTokenInRequest` of golang-jwt. -/
def ErrNoTokenInRequest : GoError :=
  .plain "no token present in request"

/-- `request.HeaderExtractor.ExtractToken` of golang-jwt (the embedded type, a
list of header names): the first header that holds data, else
`ErrNoTokenInRequest`. -/
def jwtgoHeaderExtractToken (e : List String) (req : Request) : String × Option GoError :=
  match e with
  | [] => ("", some ErrNoTokenInRequest)
  | header :: rest =>
    let ah := req.Header.Get header
    if ah ≠ "" then (ah, none) else jwtgoHeaderExtractToken rest req

/-- Go `strings.HasPrefix`. -/
def stringsHasPrefix (s pre : String) : Bool :=
  pre.toList.isPrefixOf s.toList

/-- The struct `HeaderExtractor` of `oauth2/jwt/jwt.go`; `embedded` is the
embedded `jwtgorequest.HeaderExtractor`. -/
structure HeaderExtractor where
  TokenType : String
  embedded : List String

/-- `HeaderExtractor.ExtractToken`. -/
def HeaderExtractor.ExtractToken (e : HeaderExtractor) (req : Request) : String × Option GoError :=
  match jwtgoHeaderExtractToken e.embedded req with
  | (_, some _) => ("", none)
  | (value, none) =>
    if !stringsHasPrefix value e.TokenType then
      ("", some (.plain ("token type is not registered type: " ++ e.TokenType)))
    else
      (value, none)

/-! ## `gin/middleware.go`: DebugLogRequestData -/

/-- The reader `c.Request.Body`: the bytes not read yet, and the error the
reader gives after them when it is not a clean end of input. -/
structure Body where
  pending : List UInt8
  readErr : Option String
  deriving DecidableEq, Repr

/-- What `DebugLogRequestData` reads of the request; the texts are the
formattings that go to the sink. -/
structure DebugRequest where
  method : String
  contentType : String
  fullPath : String
  clientIP : String
  header : String
  query : String
  body : Body
  deriving DecidableEq, Repr

/-- The decoders of the libraries: `json.Unmarshal` into an `interface{}`
(giving the formatting of the decoded data), and `c.MultipartForm()`, which
reads some number of bytes of the body and gives the formatting of
`form.Value` and, when `form.File` is not nil, of `form.File`. -/
structure Decoders where
  jsonUnmarshal : List UInt8 → Except String String
  multipartForm : String → List UInt8 → Nat × Except String (String × Option String)

/-- The request as the remaining handlers find it, the `Fprintf` calls on the
sink (format and arguments), the logrus warnings, and the number of `c.Next()`
calls made by the stage. -/
structure DebugWorld where
  request : DebugRequest
  out : List (String × List String)
  warnings : List LogEntry
  nextCalls : Nat
  deriving DecidableEq, Repr

/-- `logrus.Warningf` followed by `c.Next(); return`. -/
def DebugWorld.warnAndNext (w : DebugWorld) (format err : String) : DebugWorld :=
  { w with
    warnings := w.warnings ++ [{ level := .warning, format := format, args := [err] }],
    nextCalls := w.nextCalls + 1 }

/-- Assignment to `c.Request.Body` of `io.NopCloser(bytes.NewReader(buf.Bytes()))`. -/
def DebugWorld.setBody (w : DebugWorld) (buf : List UInt8) : DebugWorld :=
  { w with request := { w.request with body := { pending := buf, readErr := none } } }

/-- `strings.Repeat("=", 50)`. -/
def equalSignDelimiters : String :=
  String.mk (List.replicate 50 '=')

/-- The closing `Fprintf` of the stage followed by `c.Next()`; a nil `data`
has no text. -/
def DebugWorld.printAndNext (w : DebugWorld) (data : Option String) : DebugWorld :=
  { w with
    out := w.out ++ [("%s\n[%s - %s - %s] [%s - %s] \n%s\n",
      [equalSignDelimiters, w.request.fullPath, w.request.method, w.request.clientIP,
       w.request.header, data.getD "%!s(<nil>)", equalSignDelimiters])],
    nextCalls := w.nextCalls + 1 }

/-- The handler returned by `DebugLogRequestData(out)`. `ginDebugging` is
`gin.IsDebugging()` and `logLevelDebug` is `logrus.GetLevel() == logrus.DebugLevel`.
The result is the world in which the remaining handlers run. -/
def DebugLogRequestData (ginDebugging logLevelDebug : Bool) (dec : Decoders) (w : DebugWorld) :
    DebugWorld :=
  if !ginDebugging || !logLevelDebug then
    w
  else
    let method := w.request.method
    let contentType := w.request.contentType
    if method = "GET" || method = "DELETE" then
      w.printAndNext (some w.request.query)
    else if method = "POST" || method = "PUT" || method = "PATCH" then
      -- buf.ReadFrom(c.Request.Body) takes every pending byte out of the reader
      let buf := w.request.body.pending
      let w1 : DebugWorld :=
        { w with request := { w.request with body := { w.request.body with pending := [] } } }
      match w.request.body.readErr with
      | some err => w1.warnAndNext "read body data error: %s" err
      | none =>
        if stringsHasPrefix contentType "application/json" then
          match dec.jsonUnmarshal buf with
          | .error err => w1.warnAndNext "invalid JSON format error: %s" err
          | .ok data => (w1.setBody buf).printAndNext (some data)
        else if stringsHasPrefix contentType "multipart/form-data" then
          let (consumed, form) := dec.multipartForm contentType buf
          let w2 := w1.setBody (buf.drop consumed)
          match form with
          | .error err => w2.warnAndNext "parse multipart form error: %s" err
          | .ok (values, files) =>
            let w3 : DebugWorld :=
              match files with
              | some f => { w2 with out := w2.out ++ [("%s: find file parts: %v\n", [equalSignDelimiters, f])] }
              | none => w2
            (w3.setBody buf).printAndNext (some values)
        else
          (w1.setBody buf).printAndNext none
    else
      w.printAndNext none

/-! ## `httpclient/client.go`: OK and HandleResponse -/

/-- The part of `*http.Response` that `OK` and `HandleResponse` read. -/
structure HTTPResponse where
  StatusCode : Int
  Close : Bool
  Body : Body
  deriving DecidableEq, Repr

/-- The struct `errServerResponse`; `Response` holds the response the pointer
field refers to, `none` being the nil pointer. -/
structure errServerResponse where
  Success : Bool
  Message : String
  Response : Option HTTPResponse
  deriving DecidableEq, Repr

/-- The runtime panic of a field access through a nil pointer. -/
def nilPointerDereference : String :=
  "runtime error: invalid memory address or nil pointer dereference"

/-- `esr.setFieldValue(success, message, response)` on the pointer `esr`
(`none` is the nil pointer): the three assignments go through the pointer. -/
def errServerResponse.setFieldValue (esr : Option errServerResponse) (success : Bool)
    (message : String) (response : HTTPResponse) : Except String (Option errServerResponse) :=
  match esr with
  | none => .error nilPointerDereference
  | some _ => .ok (some { Success := success, Message := message, Response := some response })

/-- `http.StatusOK`. -/
def StatusOK : Int := 200

/-- `HTTPClient.OK`. -/
def HTTPClient.OK (resp : HTTPResponse) : Bool :=
  if StatusOK ≤ resp.StatusCode ∧ resp.StatusCode < StatusBadRequest then
    true
  else
    false

/-- The word `encoding/json` uses for the kind of a JSON value in an
`UnmarshalTypeError`. -/
def Json.kindName : Json → String
  | .null => "null"
  | .bool _ => "bool"
  | .int _ => "number"
  | .str _ => "string"
  | .arr _ => "array"
  | .obj _ => "object"

/-- Whether the object key `key` selects the struct field with the JSON name
`name`: `encoding/json` takes an exact match, else one that differs in letter
case only (ASCII letters here). -/
def jsonKeyMatches (key name : String) : Bool :=
  key == name || key.toLower == name.toLower

/-- Decoding of one object member into an `errServerResponse`, with the first
type error so far. `Success` takes a JSON boolean and `Message` a JSON string;
a `null` member leaves the field as it is; any other value is a type error,
and decoding goes on; `Response` is tagged `-` and unknown keys are skipped. -/
def decodeErrServerResponseMember (acc : errServerResponse × Option String)
    (member : String × Json) : errServerResponse × Option String :=
  if jsonKeyMatches member.1 "success" then
    match member.2 with
    | .bool b => ({ acc.1 with Success := b }, acc.2)
    | .null => acc
    | other =>
      (acc.1, acc.2.orElse fun _ => some ("json: cannot unmarshal " ++ other.kindName ++
        " into Go struct field errServerResponse.success of type bool"))
  else if jsonKeyMatches member.1 "message" then
    match member.2 with
    | .str m => ({ acc.1 with Message := m }, acc.2)
    | .null => acc
    | other =>
      (acc.1, acc.2.orElse fun _ => some ("json: cannot unmarshal " ++ other.kindName ++
        " into Go struct field errServerResponse.message of type string"))
  else
    acc

/-- `jsonlib.Unmarshal(data, &esr)` for the pointer variable `esr` of type
`*errServerResponse`. `parse` is the syntax layer of `encoding/json`: the
document, or the syntax error. Gives the pointer after the call and the
returned error. For the JSON literal `null` the decoder sets the pointer to
nil and returns no error; for an object it fills the struct the pointer refers
to (allocating one for a nil pointer); any other document is a type error. -/
def unmarshalErrServerResponse (parse : List UInt8 → Except String Json) (data : List UInt8)
    (esr : Option errServerResponse) : Option errServerResponse × Option String :=
  match parse data with
  | .error err => (esr, some err)
  | .ok .null => (none, none)
  | .ok (.obj members) =>
    let start : errServerResponse :=
      esr.getD { Success := false, Message := "", Response := none }
    let out := members.foldl decodeErrServerResponseMember (start, none)
    (some out.1, out.2)
  | .ok other =>
    (esr, some ("json: cannot unmarshal " ++ other.kindName ++
      " into Go value of type httpclient.errServerResponse"))

/-- `HTTPClient.HandleResponse(resp, entity)`. `parse` is the syntax layer of
`encoding/json`; `entity` stands for the argument `entity`: the error of
decoding a document into it, if any. The result is the returned pointer
(`none` is nil), or the panic message. -/
def HTTPClient.HandleResponse (parse : List UInt8 → Except String Json)
    (entity : Json → Option String) (resp : HTTPResponse) :
    Except String (Option errServerResponse) :=
  -- var esr = new(errServerResponse)
  let esr : Option errServerResponse := some { Success := false, Message := "", Response := none }
  -- b.ReadFrom(resp.Body)
  let b := resp.Body.pending
  match resp.Body.readErr with
  | some err => errServerResponse.setFieldValue esr false ("unable to read response, error: " ++ err) resp
  | none =>
    if HTTPClient.OK resp then
      let unmarshalErr : Option String :=
        match parse b with
        | .error err => some err
        | .ok doc => entity doc
      match unmarshalErr with
      | some err =>
        errServerResponse.setFieldValue esr false
          ("unable to unmarshal json response, error: " ++ err) resp
      | none => .ok none
    else
      match unmarshalErrServerResponse parse b esr with
      | (esr1, some err) =>
        errServerResponse.setFieldValue esr1 false
          ("unable to unmarshal json error response, error: " ++ err) resp
      | (esr1, none) =>
        -- esr.Response = resp
        match esr1 with
        | none => .error nilPointerDereference
        | some v => .ok (some { v with Response := some resp })

/-! ## `gin/handler.go`: the path rewrite of APIs -/

/-- A matcher of one character, in RE2 syntax: a literal, `.` (any character
but the line feed), a class `[...]` given by its members, and the Perl class
`\w` (ASCII letters, digits and underscore). -/
inductive CharMatcher where
  | lit (c : Char)
  | any
  | cls (members : List Char)
  | word
  deriving DecidableEq, Repr

/-- The characters of `\w`. -/
def isWordChar (c : Char) : Bool :=
  c.isAlphanum || c == '_'

/-- Whether the matcher takes the character. -/
def CharMatcher.test : CharMatcher → Char → Bool
  | .lit c, x => x == c
  | .any, x => x != Char.ofNat 10
  | .cls members, x => members.contains x
  | .word, x => isWordChar x

/-- Regular expressions, the part of the RE2 syntax that occurs in
`ginTreeNodeAPIPathRE`: `^`, one character, greedy `*` and `+` over one
character, concatenation, and numbered capture groups. -/
inductive Regex where
  | beginText
  | one (m : CharMatcher)
  | star (m : CharMatcher)
  | plus (m : CharMatcher)
  | cat (a b : Regex)
  | group (index : Nat) (r : Regex)
  deriving DecidableEq, Repr

/-- A point of a match attempt: the offset in the text, the text from there
on, and the capture groups closed so far (index, start, end), latest first. -/
structure MatchState where
  pos : Nat
  rest : List Char
  caps : List (Nat × Nat × Nat)
  deriving DecidableEq, Repr

/-- Greedy repetition of a one-character matcher followed by the continuation
`k`: the longest run is tried first, then shorter ones. -/
def starGreedy (m : CharMatcher) (k : MatchState → Option MatchState)
    (caps : List (Nat × Nat × Nat)) : Nat → List Char → Option MatchState
  | pos, [] => k { pos := pos, rest := [], caps := caps }
  | pos, x :: xs =>
    if m.test x then
      match starGreedy m k caps (pos + 1) xs with
      | some r => some r
      | none => k { pos := pos, rest := x :: xs, caps := caps }
    else
      k { pos := pos, rest := x :: xs, caps := caps }

/-- Backtracking match of `r` from the state `s`, followed by the continuation
`k`; alternatives are tried in the leftmost-first order of Go's `regexp`. -/
def Regex.run : Regex → MatchState → (MatchState → Option MatchState) → Option MatchState
  | .beginText, s, k => if s.pos = 0 then k s else none
  | .one m, s, k =>
    match s.rest with
    | x :: xs => if m.test x then k { pos := s.pos + 1, rest := xs, caps := s.caps } else none
    | [] => none
  | .star m, s, k => starGreedy m k s.caps s.pos s.rest
  | .plus m, s, k =>
    match s.rest with
    | x :: xs => if m.test x then starGreedy m k s.caps (s.pos + 1) xs else none
    | [] => none
  | .cat a b, s, k => a.run s (fun s1 => b.run s1 k)
  | .group index r, s, k =>
    r.run s (fun s1 => k { s1 with caps := (index, s.pos, s1.pos) :: s1.caps })

/-- A match of `re` that starts at the offset `pos`, where `rest` is the text
from `pos` on: the state at the end of the match. -/
def Regex.matchAt (re : Regex) (pos : Nat) (rest : List Char) : Option MatchState :=
  re.run { pos := pos, rest := rest, caps := [] } some

/-- The leftmost match at or after `pos`: its start and the state at its end. -/
def Regex.search (re : Regex) : Nat → List Char → Option (Nat × MatchState)
  | pos, [] => (re.matchAt pos []).map fun st => (pos, st)
  | pos, x :: xs =>
    match re.matchAt pos (x :: xs) with
    | some st => some (pos, st)
    | none => Regex.search re (pos + 1) xs

/-- `Regexp.MatchString`: whether the text has a match. -/
def Regex.MatchString (re : Regex) (s : String) : Bool :=
  (re.search 0 s.toList).isSome

/-- An item of a replacement template: literal text, or `$n` for group `n`. -/
inductive TemplateItem where
  | text (t : String)
  | group (n : Nat)
  deriving DecidableEq, Repr

/-- The text of group `n` of a match that starts at `start` and has the end
state `st`; group 0 is the whole match, a group that took no part is empty. -/
def groupText (src : List Char) (start : Nat) (st : MatchState) (n : Nat) : List Char :=
  if n = 0 then
    (src.drop start).take (st.pos - start)
  else
    match st.caps.find? fun c => c.1 == n with
    | some (_, b, e) => (src.drop b).take (e - b)
    | none => []

/-- `Regexp.expand`: the template with the groups of the match filled in. -/
def expandTemplate (template : List TemplateItem) (src : List Char) (start : Nat)
    (st : MatchState) : List Char :=
  template.foldr (fun item acc =>
    match item with
    | .text t => t.toList ++ acc
    | .group n => groupText src start st n ++ acc) []

/-- The loop of `Regexp.ReplaceAllString` over the text `src`, at the offset
`pos` with `rest` the text from there on; `lastMatchEnd` is the end of the
previous match. Characters inside the previous match are dropped; elsewhere
the leftmost match is looked for, its expansion is inserted (but not for an
empty match right behind the previous match), and unmatched characters are
copied. -/
def Regex.replaceAllFrom (re : Regex) (template : List TemplateItem) (src : List Char) :
    Nat → Nat → List Char → List Char
  | pos, lastMatchEnd, [] =>
    match re.matchAt pos [] with
    | some st =>
      if st.pos > lastMatchEnd ∨ pos = 0 then expandTemplate template src pos st else []
    | none => []
  | pos, lastMatchEnd, x :: xs =>
    if pos < lastMatchEnd then
      Regex.replaceAllFrom re template src (pos + 1) lastMatchEnd xs
    else
      match re.matchAt pos (x :: xs) with
      | some st =>
        (if st.pos > lastMatchEnd ∨ pos = 0 then expandTemplate template src pos st else []) ++
          (if st.pos > pos then
            Regex.replaceAllFrom re template src (pos + 1) st.pos xs
          else
            x :: Regex.replaceAllFrom re template src (pos + 1) st.pos xs)
      | none => x :: Regex.replaceAllFrom re template src (pos + 1) lastMatchEnd xs

/-- `Regexp.ReplaceAllString`. -/
def Regex.ReplaceAllString (re : Regex) (src : String) (template : List TemplateItem) : String :=
  String.mk (re.replaceAllFrom template src.toList 0 0 src.toList)

/-- The regular expression `(^/.*)([:|*](\w+))(.*)` of `gin/handler.go`. Inside
the brackets the bar is a member of the class, like the colon and the star. -/
def ginTreeNodeAPIPathRE : Regex :=
  .cat (.group 1 (.cat .beginText (.cat (.one (.lit '/')) (.star .any))))
    (.cat (.group 2 (.cat (.one (.cls [':', '|', '*'])) (.group 3 (.plus .word))))
      (.group 4 (.star .any)))

/-- The template `$1{$3}$4` of `APIs`, as `Regexp.expand` reads it: a name
after `$` is the longest run of letters, digits and underscores, so `$1` ends
before the opening brace, and both braces are literal text. -/
def apiPathTemplate : List TemplateItem :=
  [.group 1, .text "\x7b", .group 3, .text "\x7d", .group 4]

/-- The loop `for ginTreeNodeAPIPathRE.MatchString(path) { path = ... }` of
`APIs`, run for at most the given number of iterations; `none` means the
bound was hit while the path still matched. -/
def rewriteLoop : Nat → String → Option String
  | 0, _ => none
  | fuel + 1, path =>
    if ginTreeNodeAPIPathRE.MatchString path then
      rewriteLoop fuel (ginTreeNodeAPIPathRE.ReplaceAllString path apiPathTemplate)
    else
      some path

/-- A `gin.RouteInfo`, with the name of the handler. -/
structure RouteInfo where
  Method : String
  Path : String
  Handler : String
  deriving DecidableEq, Repr

/-- The path `APIs` reports for a registered route path. Every iteration of the
loop takes away one marker character that is followed by a word character, so
one iteration more than the path has characters is allowed. -/
def apiPath (path : String) : Option String :=
  rewriteLoop (path.length + 1) path

/-- The list `apis` that `APIs` builds from `engine.Routes()`: for each route
the rewritten path, the method and the name of the last handler. -/
def APIs (routes : List RouteInfo) : Option (List (String × String × String)) :=
  routes.mapM fun value => (apiPath value.Path).map fun path => (path, value.Method, value.Handler)

/-! ### The rewrite loop in closed form -/

/-- Whether the character is a member of the class `[:|*]`. -/
def isMarker (c : Char) : Bool :=
  (CharMatcher.cls [':', '|', '*']).test c

/-- Whether the text starts with a word character. -/
def startsWithWord : List Char → Bool
  | w :: _ => isWordChar w
  | [] => false

/-- The text with its last marker that is followed by a word character, and
the word behind it, replaced by the word in braces; `none` without one. -/
def replaceLastMarker : List Char → Option (List Char)
  | [] => none
  | x :: xs =>
    match replaceLastMarker xs with
    | some r => some (x :: r)
    | none =>
      if isMarker x && startsWithWord xs then
        some (Char.ofNat 123 :: xs.takeWhile isWordChar ++ Char.ofNat 125 :: xs.dropWhile isWordChar)
      else
        none

/-- What follows the body of group 1: group 1 is closed, then the rest of the
expression is matched. -/
def afterPrefix (s1 : MatchState) : Option MatchState :=
  (Regex.cat (.group 2 (.cat (.one (.cls [':', '|', '*'])) (.group 3 (.plus .word))))
      (.group 4 (.star .any))).run
    { s1 with caps := (1, 0, s1.pos) :: s1.caps } some

/-- No character of the text is a line feed. -/
abbrev lineFeedFree (l : List Char) : Prop :=
  ∀ x ∈ l, CharMatcher.any.test x = true

/-- The number of markers of the text that are followed by a word character. -/
def markerCount : List Char → Nat
  | [] => 0
  | x :: xs => (if isMarker x && startsWithWord xs then 1 else 0) + markerCount xs

/-- The text with every marker that is followed by a word character, and the
word behind it, replaced by the word in braces; all other characters are
kept. The text is worked from its end: behind a marker, the leading word of
the rewritten rest is the word behind the marker. -/
def rewriteMarkers : List Char → List Char
  | [] => []
  | x :: xs =>
    if isMarker x && startsWithWord xs then
      Char.ofNat 123 :: (rewriteMarkers xs).takeWhile isWordChar ++
        Char.ofNat 125 :: (rewriteMarkers xs).dropWhile isWordChar
    else
      x :: rewriteMarkers xs

/-- Whether the character starts a gin parameter: a colon or a star. -/
def isParamMarker (c : Char) : Bool :=
  c == ':' || c == '*'

/-- The text with every `:name` and `*name`, for a non-empty word `name`,
replaced by the name in braces; all other characters are kept. The text is
worked from its end, like `rewriteMarkers`. -/
def rewriteParams : List Char → List Char
  | [] => []
  | x :: xs =>
    if isParamMarker x && startsWithWord xs then
      Char.ofNat 123 :: (rewriteParams xs).takeWhile isWordChar ++
        Char.ofNat 125 :: (rewriteParams xs).dropWhile isWordChar
    else
      x :: rewriteParams xs

/-! ## Concrete inputs -/

/-- The context of a request to which nothing has been written yet. -/
def freshContext : Context where
  fullPath := "/api/:uuid"
  method := "GET"
  aborted := false
  status := 200
  written := []
  headersOnly := []
  logs := []

/-- An operation that fails at every attempt. -/
def alwaysFails (s : Unit) : Option GoError × Unit :=
  (some (.plain "boom"), s)

/-- An operation over an attempt counter that fails twice and then succeeds. -/
def failsTwice (s : Nat) : Option GoError × Nat :=
  (if s < 2 then some (.plain "boom") else none, s + 1)

/-- Decoders that refuse every input. On the one-byte body `{` this is what
`json.Unmarshal` does ("unexpected end of JSON input"). -/
def refusingDecoders : Decoders where
  jsonUnmarshal := fun _ => .error "unexpected end of JSON input"
  multipartForm := fun _ buf => (buf.length, .error "no multipart boundary param in Content-Type")

/-- A POST request with content type `application/json` whose body is the
single byte `{`. -/
def brokenJSONPost : DebugWorld where
  request :=
    { method := "POST", contentType := "application/json", fullPath := "/api/:uuid",
      clientIP := "127.0.0.1", header := "map[Content-Type:[application/json]]", query := "map[]",
      body := { pending := [123], readErr := none } }
  out := []
  warnings := []
  nextCalls := 0

/-- A syntax layer that knows the document `null` (the bytes `n u l l`) and
refuses every other input. On `null` this is what `encoding/json` does. -/
def parseNullOnly (data : List UInt8) : Except String Json :=
  if data = [110, 117, 108, 108] then .ok .null else .error "invalid character"

/-- A response with status 500 whose body is the JSON literal `null`. -/
def nullBodyResponse : HTTPResponse where
  StatusCode := 500
  Close := false
  Body := { pending := [110, 117, 108, 108], readErr := none }

/-! ## Theorems -/

/-- A status that `net/http` sends is positive. -/
theorem validWriteHeaderCode_pos (code : Int) (hv : validWriteHeaderCode code = true) :
    100 ≤ code ∧ code ≤ 999 := by
  simp [validWriteHeaderCode] at hv
  omega

/-- `AbortWithStatusJSON` with a status from 100 to 999 that allows a body: the
chain is aborted and the body is written with that status. -/
theorem Context.AbortWithStatusJSON_ok (c : Context) (code : Int) (body : Json)
    (hv : validWriteHeaderCode code = true) (hb : bodyAllowedForStatus code = true) :
    c.AbortWithStatusJSON code body =
      .ok { c with aborted := true, status := code, written := c.written ++ [(code, body)] } := by
  have hpos : code > 0 := by
    have := validWriteHeaderCode_pos code hv
    omega
  simp [Context.AbortWithStatusJSON, hpos, hv, hb]

/-- `AbortWithStatusJSON` with a status from 100 to 999 that allows no body: the
chain is aborted and the header alone is sent. -/
theorem Context.AbortWithStatusJSON_header_only (c : Context) (code : Int) (body : Json)
    (hv : validWriteHeaderCode code = true) (hb : bodyAllowedForStatus code = false) :
    c.AbortWithStatusJSON code body =
      .ok { c with aborted := true, status := code, headersOnly := c.headersOnly ++ [code] } := by
  have hpos : code > 0 := by
    have := validWriteHeaderCode_pos code hv
    omega
  simp [Context.AbortWithStatusJSON, hpos, hv, hb]

/-- Whatever `AbortWithStatusJSON` does, it aborts the chain; when it panics, it
is the panic of `net/http` for the status the writer holds, which is outside
100 to 999, and nothing has been written. -/
theorem Context.AbortWithStatusJSON_cases (c : Context) (code : Int) (body : Json) :
    (∀ c', c.AbortWithStatusJSON code body = .ok c' → c'.aborted = true) ∧
    (∀ msg cp, c.AbortWithStatusJSON code body = .error (msg, cp) →
      msg = invalidWriteHeaderCode cp.status ∧ validWriteHeaderCode cp.status = false ∧
      cp.aborted = true ∧ cp.written = c.written ∧ cp.headersOnly = c.headersOnly) := by
  unfold Context.AbortWithStatusJSON
  by_cases hpos : code > 0
  · simp only [hpos, if_true]
    cases hv : validWriteHeaderCode code <;> cases hb : bodyAllowedForStatus code <;>
      simp [hv, hb]
  · simp only [hpos, if_false]
    cases hv : validWriteHeaderCode c.status <;> cases hb : bodyAllowedForStatus code <;>
      simp [hv, hb]

/-- For an `ErrorCode` payload, `ResponseError` is `AbortWithStatusJSON` with the
status `httpCode` of the payload and its struct encoding, on the context it
was called with up to the log lines. -/
theorem ResponseError_errorCode_eq (debugging : Bool) (c : Context) (E : ErrorCode)
    (httpCode : List Int) :
    ∃ logs, ResponseError debugging c (.errorCode E) httpCode =
      Context.AbortWithStatusJSON { c with logs := logs } E.httpCode E.toJson := by
  have hfold : ∀ (fe : List FieldError) (acc : Context),
      ∃ logs, fe.foldl (fun (acc : Context) (value : FieldError) => acc.Errorf
        "parameter validation error: SNS: %s || ParamValue: %q || DefinedTag: %s(%s) || Type: %s"
        [value.actualTag, value.param, value.tag, value.actualTag, value.tag]) acc
        = { acc with logs := logs } := by
    intro fe
    induction fe with
    | nil => intro acc; exact ⟨acc.logs, rfl⟩
    | cons v vs ih =>
      intro acc
      simp only [List.foldl_cons]
      obtain ⟨logs, h⟩ := ih (acc.Errorf
        "parameter validation error: SNS: %s || ParamValue: %q || DefinedTag: %s(%s) || Type: %s"
        [v.actualTag, v.param, v.tag, v.actualTag, v.tag])
      exact ⟨logs, h⟩
  rcases E with ⟨code, http, msg, delim, err⟩
  cases err with
  | none => exact ⟨c.logs, rfl⟩
  | some e =>
    cases e with
    | validation fes =>
      cases debugging
      · exact ⟨c.logs ++ [LogEntry.mk .error "Error on [%s - %s]: %+v"
          [c.fullPath, c.method, (GoError.validation fes).Error]], rfl⟩
      · obtain ⟨logs, h⟩ := hfold fes c
        refine ⟨logs ++ [LogEntry.mk .error "Error on [%s - %s]: %+v"
          [c.fullPath, c.method, (GoError.validation fes).Error]], ?_⟩
        simp only [ResponseError, errorsUnwrap, if_true]
        rw [h]
        rfl
    | plain t =>
      exact ⟨c.logs ++ [LogEntry.mk .error "Error on [%s - %s]: %+v"
        [c.fullPath, c.method, (GoError.plain t).Error]], rfl⟩
    | wrapped t inner =>
      exact ⟨c.logs ++ [LogEntry.mk .error "Error on [%s - %s]: %+v"
        [c.fullPath, c.method, (GoError.wrapped t inner).Error]] ++
        [LogEntry.mk .error "Underlying error: %+v" [inner.Error]], rfl⟩

/-- The context `ResponseError` leaves behind for an `ErrorCode` payload whose
status is from 100 to 999 and allows a body: the chain is aborted and one
response is added, with the status `httpCode` of the payload and its struct
encoding as body. -/
theorem ResponseError_errorCode_ok (debugging : Bool) (c : Context) (E : ErrorCode)
    (httpCode : List Int) (hv : validWriteHeaderCode E.httpCode = true)
    (hb : bodyAllowedForStatus E.httpCode = true) :
    ∃ c', ResponseError debugging c (.errorCode E) httpCode = .ok c' ∧
      c'.aborted = true ∧ c'.status = E.httpCode ∧
      c'.written = c.written ++ [(E.httpCode, E.toJson)] := by
  obtain ⟨logs, h⟩ := ResponseError_errorCode_eq debugging c E httpCode
  rw [h, Context.AbortWithStatusJSON_ok _ _ _ hv hb]
  exact ⟨_, rfl, rfl, rfl, rfl⟩

/-- The struct encoding of every `ErrorCode` is the empty JSON object: all five
fields are unexported. -/
theorem ErrorCode_toJson_empty (E : ErrorCode) : E.toJson = Json.obj [] := by
  simp [ErrorCode.toJson, ErrorCode.structFields, jsonMarshalStruct, isExported]

/-- C1: for the scenario `NewErrorCode(1000, 400, "invalid request params")
.WithError(validationFailures)`, `ResponseError` aborts and writes one response
with status 400, but its JSON body is the empty object, not the object with the
members `code`, `httpStatus` and `message`. -/
theorem ResponseError_scenario_body_is_empty_object (debugging : Bool) (c : Context)
    (validationFailures : List FieldError) :
    ∃ c', ResponseError debugging c
        (.errorCode ((NewErrorCode 1000 400 "invalid request params").WithError
          (some (.validation validationFailures)))) [] = .ok c' ∧
      c'.written = c.written ++ [(400, Json.obj [])] ∧
      Json.obj [] ≠ Json.obj [("code", .int 1000), ("httpStatus", .int 400),
        ("message", .str "invalid request params")] := by
  obtain ⟨c', h1, _, _, h3⟩ := ResponseError_errorCode_ok debugging c
    ((NewErrorCode 1000 400 "invalid request params").WithError
      (some (.validation validationFailures))) [] rfl rfl
  refine ⟨c', h1, ?_, by simp⟩
  rw [h3, ErrorCode_toJson_empty]
  rfl

/-- C2: the recovery function of `RecoverJSONResponse` calls `ResponseError`
exactly once, without status arguments, and the `ErrorCode` of that call is
chosen by the first case that applies: a validation error set gives
`ErrInvalidRequestParams` (code 1000, status 400) with the set as cause; an
`ErrorCode` is passed on as it is; another value with an `Error()` method gives
`ErrUnknownError` (code 9999, status 500) with the value as cause; any other
value gives `ErrUnknownError` with a cause whose text is the formatting of the
value. The call is told by letting the called function be any function
`respond`. With `ResponseError` as that function, as in the source, the
call does not panic in the cases with the statuses 400 and 500, which are
written, and so is the status of a passed-on `ErrorCode` when it is from 100
to 999 and allows a body. A plain error "boom" gives code 9999 / status 500
with the text "boom" in the cause and in the log line. -/
theorem RecoverJSONResponse_classifies (debugging : Bool) (c : Context) :
    (∀ (α : Type) (respond : Context → Payload → List Int → α),
      (∀ fes : List FieldError,
        RecoverJSONResponse respond c (.error (.validation fes)) =
          respond c (.errorCode
            { code := 1000, httpCode := 400, message := "invalid request params",
              delimiter := " ", err := some (.validation fes) }) []) ∧
      (∀ v : ErrorCode,
        RecoverJSONResponse respond c (.errorCode v) = respond c (.errorCode v) []) ∧
      (∀ e : GoError, (∀ fes, e ≠ .validation fes) →
        RecoverJSONResponse respond c (.error e) =
          respond c (.errorCode
            { code := 9999, httpCode := 500, message := "unknown server internal error",
              delimiter := " ", err := some e }) []) ∧
      (∀ formatted : String,
        RecoverJSONResponse respond c (.other formatted) =
          respond c (.errorCode
            { code := 9999, httpCode := 500, message := "unknown server internal error",
              delimiter := " ", err := some (.plain formatted) }) [])) ∧
    (∀ formatted : String, (GoError.plain formatted).Error = formatted) ∧
    (∀ fes : List FieldError, ∃ c',
      RecoverJSONResponse (ResponseError debugging) c (.error (.validation fes)) = .ok c' ∧
      c'.aborted = true ∧ c'.status = 400 ∧
      c'.written = c.written ++
        [(400, (ErrInvalidRequestParams.WithError (some (.validation fes))).toJson)]) ∧
    (∀ v : ErrorCode, validWriteHeaderCode v.httpCode = true →
      bodyAllowedForStatus v.httpCode = true → ∃ c',
      RecoverJSONResponse (ResponseError debugging) c (.errorCode v) = .ok c' ∧
      c'.aborted = true ∧ c'.status = v.httpCode ∧
      c'.written = c.written ++ [(v.httpCode, v.toJson)]) ∧
    (∀ e : GoError, (∀ fes, e ≠ .validation fes) → ∃ c',
      RecoverJSONResponse (ResponseError debugging) c (.error e) = .ok c' ∧
      c'.aborted = true ∧ c'.status = 500 ∧
      c'.written = c.written ++ [(500, (ErrUnknownError.WithError (some e)).toJson)]) ∧
    (∀ formatted : String, ∃ c',
      RecoverJSONResponse (ResponseError debugging) c (.other formatted) = .ok c' ∧
      c'.aborted = true ∧ c'.status = 500 ∧
      c'.written = c.written ++
        [(500, (ErrUnknownError.WithError (some (.plain formatted))).toJson)]) ∧
    (RecoverJSONResponse (fun _ payload httpCode => (payload, httpCode)) c
        (.error (.plain "boom")) =
      (.errorCode
        { code := 9999, httpCode := 500, message := "unknown server internal error",
          delimiter := " ", err := some (.plain "boom") }, [])) ∧
    (∃ c', RecoverJSONResponse (ResponseError debugging) c (.error (.plain "boom")) = .ok c' ∧
      c'.status = 500 ∧
      c'.written = c.written ++ [(500, ErrUnknownError.toJson)] ∧
      c'.logs = c.logs ++
        [LogEntry.mk .error "Error on [%s - %s]: %+v" [c.fullPath, c.method, "boom"]]) := by
  refine ⟨fun α respond => ⟨fun _ => rfl, fun _ => rfl, ?_, fun _ => rfl⟩, fun _ => rfl,
    ?_, ?_, ?_, ?_, rfl, ?_⟩
  · intro e he
    cases e with
    | validation fes => exact absurd rfl (he fes)
    | plain t => rfl
    | wrapped t inner => rfl
  · intro fes
    exact ResponseError_errorCode_ok debugging c
      (ErrInvalidRequestParams.WithError (some (.validation fes))) [] rfl rfl
  · intro v hv hb
    exact ResponseError_errorCode_ok debugging c v [] hv hb
  · intro e he
    have h := ResponseError_errorCode_ok debugging c (ErrUnknownError.WithError (some e)) []
      rfl rfl
    cases e with
    | validation fes => exact absurd rfl (he fes)
    | plain t => exact h
    | wrapped t inner => exact h
  · intro formatted
    exact ResponseError_errorCode_ok debugging c
      (ErrUnknownError.WithError (some (.plain formatted))) [] rfl rfl
  · exact ⟨_, rfl, rfl, rfl, rfl⟩

/-- Witness for C2: a wrapped error is not a validation error set, so the third
case applies to it, and status 500 is written. -/
theorem RecoverJSONResponse_classifies_witness :
    (∀ fes, GoError.wrapped "outer: boom" (.plain "boom") ≠ .validation fes) ∧
    RecoverJSONResponse (fun _ payload httpCode => (payload, httpCode)) freshContext
        (.error (.wrapped "outer: boom" (.plain "boom"))) =
      (.errorCode
        { code := 9999, httpCode := 500, message := "unknown server internal error",
          delimiter := " ", err := some (.wrapped "outer: boom" (.plain "boom")) }, []) ∧
    ∃ c', RecoverJSONResponse (ResponseError true) freshContext
        (.error (.wrapped "outer: boom" (.plain "boom"))) = .ok c' ∧
      c'.aborted = true ∧ c'.status = 500 ∧
      c'.written = freshContext.written ++
        [(500, (ErrUnknownError.WithError
          (some (.wrapped "outer: boom" (.plain "boom")))).toJson)] :=
  ⟨fun _ h => GoError.noConfusion h,
   ((RecoverJSONResponse_classifies true freshContext).1 (Payload × List Int)
      (fun _ payload httpCode => (payload, httpCode))).2.2.1
      (.wrapped "outer: boom" (.plain "boom")) (fun _ h => GoError.noConfusion h),
   (RecoverJSONResponse_classifies true freshContext).2.2.2.2.1
      (.wrapped "outer: boom" (.plain "boom")) (fun _ h => GoError.noConfusion h)⟩

/-- The usage panic differs from every panic of `net/http` for a status. -/
theorem usagePanic_ne_invalidWriteHeaderCode (code : Int) :
    usagePanic ≠ invalidWriteHeaderCode code := by
  intro h
  have h1 := congrArg String.data h
  simp [usagePanic, invalidWriteHeaderCode, String.data_append] at h1

/-- C3, as amended: with a payload that is not an `ErrorCode` (and that
`json.Marshal` encodes), `ResponseError` without a status argument panics with
the usage message, the context at the panic being the one it was called with
(nothing written, not aborted by the call). With at least one status argument
it aborts the chain and never raises the usage panic; when the first status is
from 100 to 999 and allows a body, it does not panic and writes the payload
with that status. With an `ErrorCode` payload it never raises the usage panic,
whatever status arguments are given, and does not panic at all when the
`httpCode` of the payload is from 100 to 999. The only panic with a status at
hand is the one of `net/http` for a status outside 100 to 999, raised with the
chain aborted and nothing written. -/
theorem ResponseError_usage_panic_and_status (debugging : Bool) (c : Context) :
    (∀ encoded : Json,
      ResponseError debugging c (.other encoded) [] = .error (usagePanic, c)) ∧
    (∀ (encoded : Json) (status : Int) (rest : List Int),
      validWriteHeaderCode status = true → bodyAllowedForStatus status = true →
      ResponseError debugging c (.other encoded) (status :: rest) =
        .ok { c with aborted := true, status := status,
                     written := c.written ++ [(status, encoded)] }) ∧
    (∀ (encoded : Json) (status : Int) (rest : List Int),
      (∀ c', ResponseError debugging c (.other encoded) (status :: rest) = .ok c' →
        c'.aborted = true) ∧
      (∀ msg cp, ResponseError debugging c (.other encoded) (status :: rest) = .error (msg, cp) →
        msg ≠ usagePanic ∧ msg = invalidWriteHeaderCode cp.status ∧
        validWriteHeaderCode cp.status = false ∧ cp.aborted = true ∧
        cp.written = c.written ∧ cp.headersOnly = c.headersOnly)) ∧
    (∀ (ec : ErrorCode) (httpCode : List Int), validWriteHeaderCode ec.httpCode = true →
      ∃ c', ResponseError debugging c (.errorCode ec) httpCode = .ok c' ∧
        c'.aborted = true ∧ c'.status = ec.httpCode ∧
        (bodyAllowedForStatus ec.httpCode = true →
          c'.written = c.written ++ [(ec.httpCode, ec.toJson)])) ∧
    (∀ (ec : ErrorCode) (httpCode : List Int) (msg : String) (cp : Context),
      ResponseError debugging c (.errorCode ec) httpCode = .error (msg, cp) →
      msg ≠ usagePanic ∧ msg = invalidWriteHeaderCode cp.status ∧
      validWriteHeaderCode cp.status = false ∧ cp.aborted = true ∧
      cp.written = c.written ∧ cp.headersOnly = c.headersOnly) := by
  refine ⟨fun _ => rfl, ?_, ?_, ?_, ?_⟩
  · intro encoded status rest hv hb
    exact Context.AbortWithStatusJSON_ok c status encoded hv hb
  · intro encoded status rest
    have h := Context.AbortWithStatusJSON_cases c status encoded
    refine ⟨h.1, ?_⟩
    intro msg cp hp
    obtain ⟨h1, h2, h3, h4, h5⟩ := h.2 msg cp hp
    exact ⟨fun e => usagePanic_ne_invalidWriteHeaderCode cp.status (e ▸ h1), h1, h2, h3, h4, h5⟩
  · intro ec httpCode hv
    obtain ⟨logs, h⟩ := ResponseError_errorCode_eq debugging c ec httpCode
    rw [h]
    cases hb : bodyAllowedForStatus ec.httpCode with
    | true =>
      rw [Context.AbortWithStatusJSON_ok _ _ _ hv hb]
      exact ⟨_, rfl, rfl, rfl, fun _ => rfl⟩
    | false =>
      rw [Context.AbortWithStatusJSON_header_only _ _ _ hv hb]
      exact ⟨_, rfl, rfl, rfl, fun h => by cases h⟩
  · intro ec httpCode msg cp hp
    obtain ⟨logs, h⟩ := ResponseError_errorCode_eq debugging c ec httpCode
    rw [h] at hp
    obtain ⟨h1, h2, h3, h4, h5⟩ :=
      (Context.AbortWithStatusJSON_cases { c with logs := logs } ec.httpCode ec.toJson).2 msg cp hp
    exact ⟨fun e => usagePanic_ne_invalidWriteHeaderCode cp.status (e ▸ h1), h1, h2, h3, h4, h5⟩

/-- Witness for C3: the status 418 is from 100 to 999 and allows a body, so the
payload is written with it. -/
theorem ResponseError_usage_panic_and_status_witness :
    validWriteHeaderCode 418 = true ∧ bodyAllowedForStatus 418 = true ∧
    ResponseError false freshContext (.other (.obj [("teapot", .bool true)])) [418, 500] =
      .ok { freshContext with
            aborted := true, status := 418,
            written := freshContext.written ++ [(418, .obj [("teapot", .bool true)])] } :=
  ⟨by decide, by decide,
   (ResponseError_usage_panic_and_status false freshContext).2.1
      (.obj [("teapot", .bool true)]) 418 [500] (by decide) (by decide)⟩

/-- Counterexample to C3 as stated: with the status 42, which `net/http` does
not send, `ResponseError` panics although a status argument is given, and so
it does for an `ErrorCode` whose `httpCode` is 42; with the status 0 the
payload is written with the status 200 the writer holds, not with the status
given; with the status 204 no body is written. -/
theorem ResponseError_status_not_written :
    ResponseError false freshContext (.other (.obj [])) [42] =
      .error (invalidWriteHeaderCode 42, { freshContext with aborted := true, status := 42 }) ∧
    ResponseError false freshContext (.errorCode (NewErrorCode 1 42 "answer")) [] =
      .error (invalidWriteHeaderCode 42, { freshContext with aborted := true, status := 42 }) ∧
    ResponseError false freshContext (.other (.obj [])) [0] =
      .ok { freshContext with aborted := true, written := [(200, .obj [])] } ∧
    ResponseError false freshContext (.other (.obj [])) [204] =
      .ok { freshContext with aborted := true, status := 204, headersOnly := [204] } :=
  ⟨rfl, rfl, rfl, rfl⟩

/-- C4: `WithMessage(m, true)` gives the message `m`; `WithMessage(m, false)`
gives the old message, the delimiter and `m` joined; for a value fresh from
`NewErrorCode` the delimiter is one blank, and after `SetDelimiter(d)` it is `d`. -/
theorem WithMessage_replace_or_append (ec : ErrorCode) (m : String) :
    (ec.WithMessage m true).message = m ∧
    (ec.WithMessage m false).message = ec.message ++ ec.delimiter ++ m ∧
    (∀ (code httpCode : Int) (old : String),
      ((NewErrorCode code httpCode old).WithMessage m false).message = old ++ " " ++ m) ∧
    (∀ d : String, ((ec.SetDelimiter d).WithMessage m false).message = ec.message ++ d ++ m) :=
  ⟨rfl, rfl, fun _ _ _ => rfl, fun _ => rfl⟩

/-- C5: `WithError(nil)` gives back the receiver, field by field (the prior
cause included), and `WithError(e)` for a non-nil `e` has the cause `e` and the
other four fields of the receiver. -/
theorem WithError_nil_keeps_and_cause_sets (ec : ErrorCode) :
    ec.WithError none = ec ∧
    (ec.WithError none).err = ec.err ∧
    (∀ e : GoError,
      (ec.WithError (some e)).err = some e ∧
      (ec.WithError (some e)).code = ec.code ∧
      (ec.WithError (some e)).httpCode = ec.httpCode ∧
      (ec.WithError (some e)).message = ec.message ∧
      (ec.WithError (some e)).delimiter = ec.delimiter) :=
  ⟨rfl, rfl, fun _ => ⟨rfl, rfl, rfl, rfl, rfl⟩⟩

/-- Every builder call keeps `code` and `httpCode`. -/
theorem BuilderCall.result_code (ec : ErrorCode) (call : BuilderCall) :
    (call.result ec).code = ec.code ∧ (call.result ec).httpCode = ec.httpCode := by
  cases call with
  | setDelimiter d => exact ⟨rfl, rfl⟩
  | withMessage m r => cases r <;> exact ⟨rfl, rfl⟩
  | withError e => cases e <;> exact ⟨rfl, rfl⟩

/-- C6: after any finite chain of `SetDelimiter`, `WithMessage` and `WithError`
calls from `ec`, the final value has the `code` and `httpCode` of `ec`, and the
receiver of every call is after the call what it was before it; so a call on
`ErrInvalidRequestParams` or `ErrUnknownError` leaves them as they are. -/
theorem builder_chain_keeps_codes_and_receivers (ec : ErrorCode) (calls : List BuilderCall) :
    (runChain ec calls).2.code = ec.code ∧
    (runChain ec calls).2.httpCode = ec.httpCode ∧
    (runChain ec calls).1 = chainReceivers ec calls ∧
    (∀ call : BuilderCall,
      (call.invoke ErrInvalidRequestParams).1 = ErrInvalidRequestParams ∧
      (call.invoke ErrUnknownError).1 = ErrUnknownError) := by
  refine ⟨?_, ?_, ?_, fun _ => ⟨rfl, rfl⟩⟩
  · induction calls generalizing ec with
    | nil => rfl
    | cons call rest ih =>
      simp only [runChain, BuilderCall.invoke]
      rw [ih, (BuilderCall.result_code ec call).1]
  · induction calls generalizing ec with
    | nil => rfl
    | cons call rest ih =>
      simp only [runChain, BuilderCall.invoke]
      rw [ih, (BuilderCall.result_code ec call).2]
  · induction calls generalizing ec with
    | nil => rfl
    | cons call rest ih =>
      simp only [runChain, BuilderCall.invoke, chainReceivers]
      rw [ih]

/-! ### Retrying -/

theorem invocations_append (xs ys : List RetryEvent) :
    invocations (xs ++ ys) = invocations xs + invocations ys := by
  simp [invocations]

theorem sleeps_append (xs ys : List RetryEvent) :
    sleeps (xs ++ ys) = sleeps xs + sleeps ys := by
  simp [sleeps]

/-- The state after `j + 1` invocations is the state after `j` invocations
started behind the first one. -/
theorem stateAfter_shift {σ : Type} (f : σ → Option GoError × σ) (s : σ) (j : Nat) :
    stateAfter f s (j + 1) = stateAfter f (f s).2 j := by
  induction j with
  | zero => rfl
  | succ j ih =>
    show (f (stateAfter f s (j + 1))).2 = (f (stateAfter f (f s).2 j)).2
    rw [ih]

theorem outcome_shift {σ : Type} (f : σ → Option GoError × σ) (s : σ) (j : Nat) :
    outcome f s (j + 1) = outcome f (f s).2 j := by
  unfold outcome
  rw [stateAfter_shift]

/-- An `int` below `math.MaxInt` is incremented without wrap-around. -/
theorem wrapInt_succ (i : Int) (hlo : -9223372036854775808 ≤ i) (hhi : i < maxInt) :
    wrapInt (i + 1) = i + 1 := by
  unfold maxInt at hhi
  unfold wrapInt
  omega

/-- Every `int` value is at most `math.MaxInt`. -/
theorem wrapInt_le_maxInt (x : Int) : wrapInt x ≤ maxInt := by
  unfold wrapInt maxInt
  omega

/-- One iteration of the loop whose attempt fails. -/
theorem Retrying.loop_fail_step {σ : Type} (n d : Int) (f : σ → Option GoError × σ)
    (fuel : Nat) (i : Int) (err : Option GoError) (w : RetryWorld σ) (e : GoError)
    (hi : i ≤ n) (hf : (f w.state).1 = some e) :
    Retrying.loop n d f (fuel + 1) i err w =
      Retrying.loop n d f fuel (wrapInt (i + 1)) (some e)
        { state := (f w.state).2,
          events := w.events ++ [.invoke, .warning e.Error i n d, .sleep d] } := by
  rcases hfw : f w.state with ⟨r, s⟩
  rw [hfw] at hf
  simp only at hf
  subst hf
  simp [Retrying.loop, hi, hfw]

/-- One iteration of the loop whose attempt succeeds. -/
theorem Retrying.loop_success_step {σ : Type} (n d : Int) (f : σ → Option GoError × σ)
    (fuel : Nat) (i : Int) (err : Option GoError) (w : RetryWorld σ)
    (hi : i ≤ n) (hf : (f w.state).1 = none) :
    Retrying.loop n d f (fuel + 1) i err w =
      some (none, { state := (f w.state).2, events := w.events ++ [.invoke] }) := by
  rcases hfw : f w.state with ⟨r, s⟩
  rw [hfw] at hf
  simp only at hf
  subst hf
  simp [Retrying.loop, hi, hfw]

/-- The loop entered at `i`, when the next `k` attempts fail and the one after
them succeeds within the bound: `k + 1` invocations, `k` sleeps, result nil. -/
theorem Retrying.loop_success {σ : Type} (n d : Int) (f : σ → Option GoError × σ)
    (hmax : n ≤ maxInt) :
    ∀ (k fuel : Nat) (i : Int) (err : Option GoError) (w : RetryWorld σ),
      k < fuel → -9223372036854775808 ≤ i → i + k ≤ n →
      (∀ j, j < k → outcome f w.state j ≠ none) → outcome f w.state k = none →
      ∃ w', Retrying.loop n d f fuel i err w = some (none, w') ∧
        w'.state = stateAfter f w.state (k + 1) ∧
        invocations w'.events = invocations w.events + (k + 1) ∧
        sleeps w'.events = sleeps w.events + k := by
  intro k
  induction k with
  | zero =>
    intro fuel i err w hfuel _ hi _ hk
    obtain ⟨fuel, rfl⟩ : ∃ g, fuel = g + 1 := ⟨fuel - 1, by omega⟩
    have hi' : i ≤ n := by simpa using hi
    refine ⟨_, Retrying.loop_success_step n d f fuel i err w hi' hk, rfl, ?_, ?_⟩
    · rw [invocations_append]; rfl
    · rw [sleeps_append]; rfl
  | succ k ih =>
    intro fuel i err w hfuel hlo hi hfail hk
    obtain ⟨fuel, rfl⟩ : ∃ g, fuel = g + 1 := ⟨fuel - 1, by omega⟩
    have hi' : i ≤ n := by push_cast at hi; omega
    have hw : wrapInt (i + 1) = i + 1 := wrapInt_succ i hlo (by push_cast at hi; omega)
    have h0 : outcome f w.state 0 ≠ none := hfail 0 (Nat.succ_pos k)
    obtain ⟨e, he⟩ : ∃ e, (f w.state).1 = some e := Option.ne_none_iff_exists'.mp h0
    rw [Retrying.loop_fail_step n d f fuel i err w e hi' he, hw]
    obtain ⟨w', h1, h2, h3, h4⟩ := ih fuel (i + 1) (some e)
      { state := (f w.state).2, events := w.events ++ [.invoke, .warning e.Error i n d, .sleep d] }
      (by omega) (by omega) (by push_cast at hi; omega)
      (fun j hj => by
        have := hfail (j + 1) (by omega)
        rwa [outcome_shift] at this)
      (by rwa [outcome_shift] at hk)
    refine ⟨w', h1, ?_, ?_, ?_⟩
    · rw [h2, stateAfter_shift f w.state (k + 1)]
    · rw [h3, invocations_append]
      show invocations w.events + 1 + (k + 1) = invocations w.events + (k + 1 + 1)
      omega
    · rw [h4, sleeps_append]
      show sleeps w.events + 1 + k = sleeps w.events + (k + 1)
      omega

/-- The loop entered at `i` with `m` attempts left, when all of them fail:
`m` invocations, `m` sleeps, and the error of the last attempt (the error the
loop was entered with when `m = 0`). -/
theorem Retrying.loop_all_fail {σ : Type} (n d : Int) (f : σ → Option GoError × σ)
    (hmax : n < maxInt) :
    ∀ (m fuel : Nat) (i : Int) (err : Option GoError) (w : RetryWorld σ),
      m < fuel → -9223372036854775808 ≤ i → i + m = n + 1 →
      (∀ j, j < m → outcome f w.state j ≠ none) →
      ∃ w', Retrying.loop n d f fuel i err w =
          some (if m = 0 then err else outcome f w.state (m - 1), w') ∧
        w'.state = stateAfter f w.state m ∧
        invocations w'.events = invocations w.events + m ∧
        sleeps w'.events = sleeps w.events + m := by
  intro m
  induction m with
  | zero =>
    intro fuel i err w hfuel _ hi _
    obtain ⟨fuel, rfl⟩ : ∃ g, fuel = g + 1 := ⟨fuel - 1, by omega⟩
    have hi' : ¬ i ≤ n := by push_cast at hi; omega
    exact ⟨w, by simp [Retrying.loop, hi'], rfl, rfl, rfl⟩
  | succ m ih =>
    intro fuel i err w hfuel hlo hi hfail
    obtain ⟨fuel, rfl⟩ : ∃ g, fuel = g + 1 := ⟨fuel - 1, by omega⟩
    have hi' : i ≤ n := by push_cast at hi; omega
    have hw : wrapInt (i + 1) = i + 1 := wrapInt_succ i hlo (by omega)
    have h0 : outcome f w.state 0 ≠ none := hfail 0 (Nat.succ_pos m)
    obtain ⟨e, he⟩ : ∃ e, (f w.state).1 = some e := Option.ne_none_iff_exists'.mp h0
    rw [Retrying.loop_fail_step n d f fuel i err w e hi' he, hw]
    obtain ⟨w', h1, h2, h3, h4⟩ := ih fuel (i + 1) (some e)
      { state := (f w.state).2, events := w.events ++ [.invoke, .warning e.Error i n d, .sleep d] }
      (by omega) (by omega) (by push_cast at hi; omega)
      (fun j hj => by
        have := hfail (j + 1) (by omega)
        rwa [outcome_shift] at this)
    refine ⟨w', ?_, ?_, ?_, ?_⟩
    · rw [h1]
      cases m with
      | zero => simp [outcome, stateAfter, he]
      | succ m => simp [outcome_shift]
    · rw [h2, stateAfter_shift f w.state m]
    · rw [h3, invocations_append]
      show invocations w.events + 1 + m = invocations w.events + (m + 1)
      omega
    · rw [h4, sleeps_append]
      show sleeps w.events + 1 + m = sleeps w.events + (m + 1)
      omega

/-- With more iterations allowed than attempts are left, the loop leaves, and
it has invoked the operation at most once per attempt that was left. -/
theorem Retrying.loop_total {σ : Type} (n d : Int) (f : σ → Option GoError × σ)
    (hmax : n < maxInt) :
    ∀ (fuel : Nat) (i : Int) (err : Option GoError) (w : RetryWorld σ),
      (n + 1 - i).toNat < fuel → -9223372036854775808 ≤ i →
      ∃ r w', Retrying.loop n d f fuel i err w = some (r, w') ∧
        invocations w'.events ≤ invocations w.events + (n + 1 - i).toNat := by
  intro fuel
  induction fuel with
  | zero => intro i err w h; omega
  | succ fuel ih =>
    intro i err w h hlo
    by_cases hi : i ≤ n
    · rcases hfw : (f w.state).1 with _ | e
      · refine ⟨none, _, Retrying.loop_success_step n d f fuel i err w hi hfw, ?_⟩
        rw [invocations_append]
        show invocations w.events + 1 ≤ _
        omega
      · rw [Retrying.loop_fail_step n d f fuel i err w e hi hfw,
          wrapInt_succ i hlo (by omega)]
        obtain ⟨r, w', h1, h2⟩ := ih (i + 1) (some e)
          { state := (f w.state).2,
            events := w.events ++ [.invoke, .warning e.Error i n d, .sleep d] } (by omega)
          (by omega)
        refine ⟨r, w', h1, ?_⟩
        rw [invocations_append] at h2
        have h3 : invocations [RetryEvent.invoke, .warning e.Error i n d, .sleep d] = 1 := rfl
        rw [h3] at h2
        omega
    · exact ⟨err, w, by simp [Retrying.loop, hi], Nat.le_add_right _ _⟩

/-- A negative `retryTimes` is refused at once: the invalid-argument error, no
invocation, no sleep. -/
theorem Retrying_negative {σ : Type} (retryTimes d : Int) (f : σ → Option GoError × σ)
    (w : RetryWorld σ) (h : retryTimes < 0) :
    Retrying retryTimes d f w =
      some (some (.plain "invalid param, 'retryTimes' should be greater than 0"), w) := by
  simp [Retrying, h]

/-- C7: with `retryTimes == 0` the guard `retryTimes < 0` does not fire:
`Retrying` invokes nothing and sleeps nowhere, but the error it returns is the
"retry error since oversize default times: 0" error the loop starts with, not
the invalid-argument error. -/
theorem Retrying_zero_skips_invalid_param {σ : Type} (d : Int) (f : σ → Option GoError × σ)
    (w : RetryWorld σ) :
    Retrying 0 d f w =
      some (some (.plain "retry error since oversize default times: 0"), w) ∧
    GoError.plain "retry error since oversize default times: 0" ≠
      GoError.plain "invalid param, 'retryTimes' should be greater than 0" := by
  constructor
  · simp [Retrying, Retrying.loop]
    rfl
  · decide

/-- C8, as amended: for `retryTimes = n` with `1 <= n <= math.MaxInt`: when
attempt `k <= n` is the first that succeeds, `Retrying` returns nil after
exactly `k` invocations (and `k - 1` sleeps); and for `n < math.MaxInt`: when
the attempts `1..n` all fail, it returns the error of attempt `n` after exactly
`n` invocations (and `n` sleeps), and in every case it returns, having invoked
the operation at most `n` times. Attempt `j + 1` has the outcome
`outcome f w.state j`. -/
theorem Retrying_invokes_up_to_retryTimes {σ : Type} (n : Int) (hn : 1 ≤ n)
    (hmax : n ≤ maxInt) (d : Int) (f : σ → Option GoError × σ) (w : RetryWorld σ) :
    (∀ k : Nat, 1 ≤ k → (k : Int) ≤ n →
      (∀ j, j + 1 < k → outcome f w.state j ≠ none) → outcome f w.state (k - 1) = none →
      ∃ w', Retrying n d f w = some (none, w') ∧
        w'.state = stateAfter f w.state k ∧
        invocations w'.events = invocations w.events + k ∧
        sleeps w'.events = sleeps w.events + (k - 1)) ∧
    (n < maxInt → (∀ j : Nat, (j : Int) < n → outcome f w.state j ≠ none) →
      ∃ w', Retrying n d f w = some (outcome f w.state (n.toNat - 1), w') ∧
        outcome f w.state (n.toNat - 1) ≠ none ∧
        w'.state = stateAfter f w.state n.toNat ∧
        invocations w'.events = invocations w.events + n.toNat ∧
        sleeps w'.events = sleeps w.events + n.toNat) ∧
    (n < maxInt → ∃ r w', Retrying n d f w = some (r, w') ∧
      invocations w'.events ≤ invocations w.events + n.toNat) := by
  have hneg : ¬ n < 0 := by omega
  refine ⟨?_, ?_, ?_⟩
  · intro k hk hkn hfail hsucc
    obtain ⟨k, rfl⟩ : ∃ g, k = g + 1 := ⟨k - 1, by omega⟩
    obtain ⟨w', h1, h2, h3, h4⟩ := Retrying.loop_success n d f hmax k (n.toNat + 1) 1
      (some (.plain ("retry error since oversize default times: " ++ toString n))) w
      (by push_cast at hkn; omega) (by omega) (by push_cast at hkn; omega)
      (fun j hj => hfail j (by omega)) (by simpa using hsucc)
    refine ⟨w', ?_, h2, h3, by simpa using h4⟩
    simp only [Retrying, hneg, if_false]
    exact h1
  · intro hlt hfail
    obtain ⟨w', h1, h2, h3, h4⟩ := Retrying.loop_all_fail n d f hlt n.toNat (n.toNat + 1) 1
      (some (.plain ("retry error since oversize default times: " ++ toString n))) w
      (by omega) (by omega) (by omega)
      (fun j hj => hfail j (by omega))
    have hm : n.toNat ≠ 0 := by omega
    refine ⟨w', ?_, hfail (n.toNat - 1) (by omega), h2, h3, h4⟩
    simp only [Retrying, hneg, if_false]
    rw [h1, if_neg hm]
  · intro hlt
    obtain ⟨r, w', h1, h2⟩ := Retrying.loop_total n d f hlt (n.toNat + 1) 1
      (some (.plain ("retry error since oversize default times: " ++ toString n))) w (by omega)
      (by omega)
    refine ⟨r, w', ?_, ?_⟩
    · simp only [Retrying, hneg, if_false]
      exact h1
    · have : (n + 1 - 1).toNat = n.toNat := by simp
      omega

/-- Witness for C8: with `retryTimes = 3` and an operation that fails twice,
`Retrying` returns nil after three invocations and two sleeps. -/
theorem Retrying_invokes_up_to_retryTimes_witness :
    (1 : Int) ≤ 3 ∧ (3 : Int) ≤ maxInt ∧
    ∃ w', Retrying 3 1000 failsTwice { state := 0, events := [] } = some (none, w') ∧
      w'.state = stateAfter failsTwice 0 3 ∧
      invocations w'.events = invocations [] + 3 ∧
      sleeps w'.events = sleeps [] + (3 - 1) :=
  ⟨by decide, by decide,
   (Retrying_invokes_up_to_retryTimes 3 (by decide) (by decide) 1000 failsTwice
      { state := 0, events := [] }).1 3 (by decide) (by decide)
      (fun j hj => by
        have hj2 : j < 2 := by omega
        interval_cases j <;> decide)
      (by decide)⟩

/-- With `retryTimes = math.MaxInt` and an operation that fails at every
attempt, the loop never leaves, whatever number of iterations it is given:
the counter wraps around to the least `int`, which is again at most
`retryTimes`. -/
theorem Retrying.loop_never_leaves {σ : Type} (d : Int) (f : σ → Option GoError × σ)
    (hf : ∀ s, (f s).1 ≠ none) :
    ∀ (fuel : Nat) (i : Int) (err : Option GoError) (w : RetryWorld σ),
      i ≤ maxInt → Retrying.loop maxInt d f fuel i err w = none := by
  intro fuel
  induction fuel with
  | zero => intro i err w _; rfl
  | succ fuel ih =>
    intro i err w hi
    obtain ⟨e, he⟩ : ∃ e, (f w.state).1 = some e := Option.ne_none_iff_exists'.mp (hf w.state)
    rw [Retrying.loop_fail_step maxInt d f fuel i err w e hi he]
    exact ih _ _ _ (wrapInt_le_maxInt _)

/-- Counterexample to C8 as stated: with `retryTimes = math.MaxInt`
(9223372036854775807, which is at least 1) and an operation that fails at
every attempt, `Retrying` does not return after `retryTimes` invocations: the
loop does not leave within any number of iterations. -/
theorem Retrying_maxInt_never_returns :
    (1 : Int) ≤ 9223372036854775807 ∧
    Retrying 9223372036854775807 1000 alwaysFails { state := (), events := [] } = none ∧
    ¬ ∃ (fuel : Nat) (out : Option GoError × RetryWorld Unit),
      Retrying.loop 9223372036854775807 1000 alwaysFails fuel 1
        (some (.plain ("retry error since oversize default times: " ++
          toString (9223372036854775807 : Int)))) { state := (), events := [] } = some out := by
  have hf : ∀ s, (alwaysFails s).1 ≠ none := fun _ h => by cases h
  have key := Retrying.loop_never_leaves 1000 alwaysFails hf
  have hm : maxInt = 9223372036854775807 := rfl
  rw [hm] at key
  refine ⟨by decide, ?_, ?_⟩
  · have hneg : ¬ (9223372036854775807 : Int) < 0 := by decide
    simp only [Retrying, hneg, if_false]
    exact key _ 1 _ _ (by decide)
  · rintro ⟨fuel, out, h⟩
    rw [key fuel 1 _ _ (by decide)] at h
    cases h

/-! ### ExtractToken -/

/-- C9: for a request without the configured header, `ExtractToken` returns
the empty token together with a nil error; and for the header value
"Bearer abc" with token type "Bearer" it returns the whole value, scheme
included, not the remainder behind the scheme. -/
theorem ExtractToken_missing_header_empty_token_nil_error :
    HeaderExtractor.ExtractToken { TokenType := "Bearer", embedded := ["Authorization"] }
      { Header := [] } = ("", none) ∧
    HeaderExtractor.ExtractToken { TokenType := "Bearer", embedded := ["Authorization"] }
      { Header := [("Authorization", ["Bearer abc"])] } = ("Bearer abc", none) := by
  constructor <;> decide

/-- A header value that does not start with the token type is refused with a
non-nil error. -/
theorem ExtractToken_wrong_scheme (e : HeaderExtractor) (req : Request) (value : String)
    (hv : jwtgoHeaderExtractToken e.embedded req = (value, none))
    (hp : stringsHasPrefix value e.TokenType = false) :
    HeaderExtractor.ExtractToken e req =
      ("", some (.plain ("token type is not registered type: " ++ e.TokenType))) := by
  simp [HeaderExtractor.ExtractToken, hv, hp]

/-! ### DebugLogRequestData -/

/-- When the stage is inactive, the world is untouched: same body, nothing
written to the sink, no warning. -/
theorem DebugLogRequestData_inactive (ginDebugging logLevelDebug : Bool) (dec : Decoders)
    (w : DebugWorld) (h : ginDebugging = false ∨ logLevelDebug = false) :
    DebugLogRequestData ginDebugging logLevelDebug dec w = w := by
  rcases h with h | h <;> simp [DebugLogRequestData, h]

/-- C10: when the stage is active and a POST, PUT or PATCH request with a JSON
content type has a body that `json.Unmarshal` refuses, the stage logs one
warning and calls `c.Next()` with the body reader left drained: the remaining
handlers read no byte, so for a non-empty body they do not read the original
bytes. -/
theorem DebugLogRequestData_json_failure_leaves_body_drained (dec : Decoders) (w : DebugWorld)
    (err : String)
    (hm : w.request.method = "POST" ∨ w.request.method = "PUT" ∨ w.request.method = "PATCH")
    (hct : stringsHasPrefix w.request.contentType "application/json" = true)
    (hr : w.request.body.readErr = none)
    (hj : dec.jsonUnmarshal w.request.body.pending = .error err)
    (hne : w.request.body.pending ≠ []) :
    (DebugLogRequestData true true dec w).request.body.pending = [] ∧
    (DebugLogRequestData true true dec w).request.body.pending ≠ w.request.body.pending ∧
    (DebugLogRequestData true true dec w).nextCalls = w.nextCalls + 1 ∧
    (DebugLogRequestData true true dec w).out = w.out ∧
    (DebugLogRequestData true true dec w).warnings =
      w.warnings ++ [LogEntry.mk .warning "invalid JSON format error: %s" [err]] := by
  have hrun : DebugLogRequestData true true dec w =
      DebugWorld.warnAndNext
        { w with request := { w.request with body := { w.request.body with pending := [] } } }
        "invalid JSON format error: %s" err := by
    rcases hm with hm | hm | hm <;>
      simp [DebugLogRequestData, hm, hct, hr, hj]
  rw [hrun]
  exact ⟨rfl, fun h => hne h.symm, rfl, rfl, rfl⟩

/-- Witness for C10: the POST body `{` is gone when the remaining handlers run. -/
theorem DebugLogRequestData_json_failure_leaves_body_drained_witness :
    brokenJSONPost.request.body.pending = [123] ∧
    (DebugLogRequestData true true refusingDecoders brokenJSONPost).request.body.pending = [] ∧
    (DebugLogRequestData true true refusingDecoders brokenJSONPost).request.body.pending ≠
      brokenJSONPost.request.body.pending :=
  ⟨rfl,
   (DebugLogRequestData_json_failure_leaves_body_drained refusingDecoders brokenJSONPost
      "unexpected end of JSON input" (Or.inl rfl) (by decide) rfl rfl (by decide)).1,
   (DebugLogRequestData_json_failure_leaves_body_drained refusingDecoders brokenJSONPost
      "unexpected end of JSON input" (Or.inl rfl) (by decide) rfl rfl (by decide)).2.1⟩

/-! ### HTTPClient -/

/-- `OK` is true exactly for the status codes in `[200, 400)`. -/
theorem HTTPClient.OK_iff (resp : HTTPResponse) :
    HTTPClient.OK resp = true ↔ 200 ≤ resp.StatusCode ∧ resp.StatusCode < 400 := by
  unfold HTTPClient.OK StatusOK StatusBadRequest
  split <;> simp_all

/-- `HandleResponse` returns nil only for a status in `[200, 400)`. -/
theorem HTTPClient.HandleResponse_nil_only_when_OK (parse : List UInt8 → Except String Json)
    (entity : Json → Option String) (resp : HTTPResponse)
    (h : HTTPClient.HandleResponse parse entity resp = .ok none) :
    200 ≤ resp.StatusCode ∧ resp.StatusCode < 400 := by
  rw [← HTTPClient.OK_iff]
  by_contra hok
  have hok' : HTTPClient.OK resp = false := by simpa using hok
  unfold HTTPClient.HandleResponse at h
  rcases hr : resp.Body.readErr with _ | err
  · simp only [hr, hok'] at h
    rcases hu : unmarshalErrServerResponse parse resp.Body.pending
        (some { Success := false, Message := "", Response := none }) with ⟨esr1, e⟩
    rw [hu] at h
    rcases e with _ | e
    · rcases esr1 with _ | v <;> simp at h
    · rcases esr1 with _ | v <;> simp [errServerResponse.setFieldValue] at h
  · simp [hr, errServerResponse.setFieldValue] at h

/-- For a status outside `[200, 400)`, a readable body and any document other
than `null` (or a body that is not JSON at all), `HandleResponse` returns a
non-nil payload whose `Response` is the given response. -/
theorem HTTPClient.HandleResponse_error_payload (parse : List UInt8 → Except String Json)
    (entity : Json → Option String) (resp : HTTPResponse)
    (hs : ¬ (200 ≤ resp.StatusCode ∧ resp.StatusCode < 400))
    (hr : resp.Body.readErr = none)
    (hp : parse resp.Body.pending ≠ .ok .null) :
    ∃ v, HTTPClient.HandleResponse parse entity resp = .ok (some v) ∧
      v.Response = some resp := by
  have hok : HTTPClient.OK resp = false := by
    rw [← HTTPClient.OK_iff] at hs
    simpa using hs
  unfold HTTPClient.HandleResponse
  simp only [hr, hok]
  unfold unmarshalErrServerResponse
  rcases hd : parse resp.Body.pending with err | doc
  · exact ⟨_, rfl, rfl⟩
  · cases doc with
    | null => exact absurd hd hp
    | bool b => exact ⟨_, rfl, rfl⟩
    | int i => exact ⟨_, rfl, rfl⟩
    | str t => exact ⟨_, rfl, rfl⟩
    | arr items => exact ⟨_, rfl, rfl⟩
    | obj members =>
      simp only [Option.getD_some]
      rcases hf : (members.foldl decodeErrServerResponseMember
          ({ Success := false, Message := "", Response := none }, none)).2 with _ | e
      · exact ⟨_, rfl, rfl⟩
      · exact ⟨_, rfl, rfl⟩

/-- C11: for a response with a status outside `[200, 400)` whose body is read
without error and is the JSON literal `null`, `HandleResponse` does not return
a payload: decoding `null` into `&esr` sets the pointer `esr` to nil, and the
assignment `esr.Response = resp` panics on the nil pointer. -/
theorem HTTPClient.HandleResponse_null_body_panics (parse : List UInt8 → Except String Json)
    (entity : Json → Option String) (resp : HTTPResponse)
    (hs : ¬ (200 ≤ resp.StatusCode ∧ resp.StatusCode < 400))
    (hr : resp.Body.readErr = none)
    (hp : parse resp.Body.pending = .ok .null) :
    HTTPClient.OK resp = false ∧
    HTTPClient.HandleResponse parse entity resp = .error nilPointerDereference ∧
    ¬ ∃ v, HTTPClient.HandleResponse parse entity resp = .ok (some v) := by
  have hok : HTTPClient.OK resp = false := by
    rw [← HTTPClient.OK_iff] at hs
    simpa using hs
  have hrun : HTTPClient.HandleResponse parse entity resp = .error nilPointerDereference := by
    simp [HTTPClient.HandleResponse, hr, hok, unmarshalErrServerResponse, hp]
  refine ⟨hok, hrun, ?_⟩
  rintro ⟨v, hv⟩
  rw [hrun] at hv
  cases hv

/-- Witness for C11: status 500 with the body `null`. -/
theorem HTTPClient.HandleResponse_null_body_panics_witness :
    nullBodyResponse.StatusCode = 500 ∧
    HTTPClient.HandleResponse parseNullOnly (fun _ => none) nullBodyResponse =
      .error nilPointerDereference :=
  ⟨rfl,
   (HTTPClient.HandleResponse_null_body_panics parseNullOnly (fun _ => none) nullBodyResponse
      (by decide) rfl (by simp [parseNullOnly, nullBodyResponse])).2.1⟩

/-! ### ErrorCode.String -/

/-- C12: for all `code`, `httpStatus` and `message`,
`NewErrorCode(code, httpStatus, message).String()` is `message`, the new value
has the delimiter " " and a nil cause, and `String()` of any `ErrorCode` is its
current message, whatever its code, status and cause are. -/
theorem NewErrorCode_String_is_message (code httpStatus : Int) (message : String) :
    (NewErrorCode code httpStatus message).String = message ∧
    (NewErrorCode code httpStatus message).delimiter = " " ∧
    (NewErrorCode code httpStatus message).err = none ∧
    (∀ ec : ErrorCode, ec.String = ec.message) ∧
    (∀ (c h : Int) (m d : String) (e : Option GoError),
      ErrorCode.String { code := c, httpCode := h, message := m, delimiter := d, err := e } = m) :=
  ⟨rfl, rfl, rfl, fun _ => rfl, fun _ _ _ _ _ => rfl⟩

/-! ### APIs -/

/-- The examples of the comment on `ginTreeNodeAPIPathRE` are rewritten as the
comment on `APIs` says, and a path without a marker is returned as it is. -/
theorem apiPath_examples :
    apiPath "/api/:uuid" = some "/api/\x7buuid\x7d" ∧
    apiPath "/api/:uuid/article/:id" = some "/api/\x7buuid\x7d/article/\x7bid\x7d" ∧
    apiPath "/api/v1/*path" = some "/api/v1/\x7bpath\x7d" ∧
    apiPath "/api/v1/articles" = some "/api/v1/articles" := by
  refine ⟨?_, ?_, ?_, ?_⟩ <;> decide

theorem matchAt_zero_slash (t : List Char) :
    ginTreeNodeAPIPathRE.matchAt 0 ('/' :: t) = starGreedy .any afterPrefix [] 1 t := by
  rfl

theorem matchAt_pos (pos : Nat) (h : pos ≠ 0) (rest : List Char) :
    ginTreeNodeAPIPathRE.matchAt pos rest = none := by
  simp [Regex.matchAt, ginTreeNodeAPIPathRE, Regex.run, h]

theorem starGreedy_total (m : CharMatcher) (k : MatchState → Option MatchState)
    (hk : ∀ s, (k s).isSome = true) (caps : List (Nat × Nat × Nat)) :
    ∀ (l : List Char) (pos : Nat),
      starGreedy m k caps pos l =
        k { pos := pos + (l.takeWhile m.test).length, rest := l.dropWhile m.test, caps := caps } := by
  intro l
  induction l with
  | nil => intro pos; simp [starGreedy]
  | cons x xs ih =>
    intro pos
    by_cases hx : m.test x = true
    · simp only [starGreedy, hx, if_true, List.takeWhile_cons_of_pos, List.dropWhile_cons_of_pos,
        List.length_cons]
      rw [ih]
      have e : pos + 1 + (List.takeWhile m.test xs).length
          = pos + ((List.takeWhile m.test xs).length + 1) := by omega
      rw [e]
      obtain ⟨r, hr⟩ := Option.isSome_iff_exists.mp (hk
        { pos := pos + ((List.takeWhile m.test xs).length + 1), rest := List.dropWhile m.test xs,
          caps := caps })
      rw [hr]
    · simp [starGreedy, hx, List.takeWhile, List.dropWhile]

theorem starGreedy_any_some (f : MatchState → MatchState) (caps : List (Nat × Nat × Nat))
    (l : List Char) (pos : Nat) (hl : lineFeedFree l) :
    starGreedy .any (fun s => some (f s)) caps pos l =
      some (f { pos := pos + l.length, rest := [], caps := caps }) := by
  rw [starGreedy_total .any (fun s => some (f s)) (fun _ => rfl)]
  have h1 : l.takeWhile CharMatcher.any.test = l := List.takeWhile_eq_self_iff.mpr hl
  have h2 : l.dropWhile CharMatcher.any.test = [] := List.dropWhile_eq_nil_iff.mpr hl
  rw [h1, h2]

theorem afterPrefix_marker (p : Nat) (c w : Char) (r : List Char) (hc : isMarker c = true)
    (hw : isWordChar w = true) (hr : lineFeedFree r) :
    afterPrefix { pos := p, rest := c :: w :: r, caps := [] } =
      some { pos := p + 2 + r.length, rest := [],
             caps := [(4, p + 2 + (r.takeWhile isWordChar).length, p + 2 + r.length),
                      (2, p, p + 2 + (r.takeWhile isWordChar).length),
                      (3, p + 1, p + 2 + (r.takeWhile isWordChar).length),
                      (1, 0, p)] } := by
  have hc' : (CharMatcher.cls [':', '|', '*']).test c = true := hc
  have hw' : CharMatcher.word.test w = true := hw
  simp only [afterPrefix, Regex.run, hc', hw', if_true]
  rw [starGreedy_total .word _ (fun s => by
    rw [starGreedy_total .any (fun s1 => some
      { pos := s1.pos, rest := s1.rest, caps := (4, s.pos, s1.pos) :: s1.caps }) (fun _ => rfl)]
    rfl)]
  have hlen : (r.takeWhile isWordChar).length + (r.dropWhile isWordChar).length = r.length := by
    rw [← List.length_append, List.takeWhile_append_dropWhile]
  have hdrop : lineFeedFree (r.dropWhile isWordChar) := fun x hx =>
    hr x ((List.dropWhile_suffix isWordChar).subset hx)
  have ht : CharMatcher.word.test = isWordChar := rfl
  simp only [ht]
  rw [starGreedy_any_some _ _ _ _ hdrop]
  have e1 : p + 1 + 1 + (r.takeWhile isWordChar).length + (r.dropWhile isWordChar).length
      = p + 2 + r.length := by omega
  have e2 : p + 1 + 1 + (r.takeWhile isWordChar).length
      = p + 2 + (r.takeWhile isWordChar).length := by omega
  simp only [e1, e2]

theorem afterPrefix_nil (p : Nat) :
    afterPrefix { pos := p, rest := [], caps := [] } = none := by
  simp [afterPrefix, Regex.run]

theorem afterPrefix_no_marker (p : Nat) (x : Char) (xs : List Char)
    (h : (isMarker x && startsWithWord xs) = false) :
    afterPrefix { pos := p, rest := x :: xs, caps := [] } = none := by
  have hx : (CharMatcher.cls [':', '|', '*']).test x = isMarker x := rfl
  cases hm : isMarker x with
  | false => simp [afterPrefix, Regex.run, hx, hm]
  | true =>
    rw [hm] at h
    cases xs with
    | nil => simp [afterPrefix, Regex.run, hx, hm]
    | cons w r =>
      have hw : CharMatcher.word.test w = false := by simpa [startsWithWord] using h
      simp [afterPrefix, Regex.run, hx, hm, hw]

theorem expand_split (pre name post : List Char) (c : Char) :
    expandTemplate apiPathTemplate (pre ++ c :: (name ++ post)) 0
      { pos := (pre ++ c :: (name ++ post)).length, rest := [],
        caps := [(4, pre.length + 1 + name.length, (pre ++ c :: (name ++ post)).length),
                 (2, pre.length, pre.length + 1 + name.length),
                 (3, pre.length + 1, pre.length + 1 + name.length),
                 (1, 0, pre.length)] } =
      pre ++ Char.ofNat 123 :: name ++ Char.ofNat 125 :: post := by
  simp [expandTemplate, apiPathTemplate, groupText, List.find?]
  have hd : List.drop (pre.length + 1 + name.length) (pre ++ c :: (name ++ post)) = post := by
    have h1 : pre ++ c :: (name ++ post) = (pre ++ c :: name) ++ post := by simp
    have h2 : (pre ++ c :: name).length = pre.length + 1 + name.length := by
      simp only [List.length_append, List.length_cons]
      omega
    rw [h1, ← h2]
    exact List.drop_left _ _
  rw [hd]
  apply List.take_of_length_le
  omega

/-- The greedy prefix `.*` of group 1 over the text `t` behind `pre`: the match
fails when `t` has no marker followed by a word character, and else it ends at
the end of the text and expands to the text with the last such marker and its
word replaced. -/
theorem starGreedy_afterPrefix (src : List Char) :
    ∀ (t pre : List Char), lineFeedFree t → src = pre ++ t →
      match replaceLastMarker t with
      | none => starGreedy .any afterPrefix [] pre.length t = none
      | some r => ∃ st, starGreedy .any afterPrefix [] pre.length t = some st ∧
          st.pos = src.length ∧ expandTemplate apiPathTemplate src 0 st = pre ++ r := by
  intro t
  induction t with
  | nil =>
    intro pre _ _
    simp only [replaceLastMarker, starGreedy]
    exact afterPrefix_nil _
  | cons x xs ih =>
    intro pre hfree hsrc
    have hx : CharMatcher.any.test x = true := hfree x (List.mem_cons_self _ _)
    have hxs : lineFeedFree xs := fun y hy => hfree y (List.mem_cons_of_mem _ hy)
    have ih' := ih (pre ++ [x]) hxs (by simp [hsrc])
    simp only [replaceLastMarker, starGreedy, hx, if_true]
    have hl : (pre ++ [x]).length = pre.length + 1 := by simp
    rw [hl] at ih'
    rcases hrep : replaceLastMarker xs with _ | r
    · rw [hrep] at ih'
      simp only at ih'
      rw [ih']
      simp only
      by_cases hm : (isMarker x && startsWithWord xs) = true
      · simp only [hm, if_true]
        obtain ⟨hmx, hws⟩ := Bool.and_eq_true_iff.mp hm
        cases xs with
        | nil => simp [startsWithWord] at hws
        | cons w r =>
          have hw : isWordChar w = true := hws
          have hr : lineFeedFree r := fun y hy => hxs y (List.mem_cons_of_mem _ hy)
          refine ⟨_, afterPrefix_marker pre.length x w r hmx hw hr, ?_, ?_⟩
          · simp [hsrc]; omega
          · have htw : (w :: r).takeWhile isWordChar = w :: r.takeWhile isWordChar := by
              simp [List.takeWhile, hw]
            have hdw : (w :: r).dropWhile isWordChar = r.dropWhile isWordChar := by
              simp [List.dropWhile, hw]
            have hsplit : src = pre ++ x :: ((w :: r.takeWhile isWordChar) ++ r.dropWhile isWordChar) := by
              rw [hsrc]
              simp [List.takeWhile_append_dropWhile]
            have key := expand_split pre (w :: r.takeWhile isWordChar) (r.dropWhile isWordChar) x
            rw [← hsplit] at key
            rw [htw, hdw]
            have e1 : pre.length + 2 + (r.takeWhile isWordChar).length
                = pre.length + 1 + (w :: r.takeWhile isWordChar).length := by
              simp only [List.length_cons]; omega
            have e2 : pre.length + 2 + r.length = src.length := by
              rw [hsrc]; simp only [List.length_append, List.length_cons]; omega
            rw [e1, e2]
            simpa using key
      · have hm' : (isMarker x && startsWithWord xs) = false := by simpa using hm
        simp only [hm']
        exact afterPrefix_no_marker _ _ _ hm'
    · rw [hrep] at ih'
      obtain ⟨st, h1, h2, h3⟩ := ih'
      simp only [h1]
      exact ⟨st, rfl, h2, by simpa using h3⟩

theorem search_pos (pos : Nat) (h : pos ≠ 0) :
    ∀ rest : List Char, ginTreeNodeAPIPathRE.search pos rest = none := by
  intro rest
  induction rest generalizing pos with
  | nil => simp [Regex.search, matchAt_pos pos h]
  | cons x xs ih => simp [Regex.search, matchAt_pos pos h, ih (pos + 1) (by omega)]

theorem replaceAllFrom_inside (src : List Char) (E : Nat) :
    ∀ (rest : List Char) (pos : Nat), pos ≠ 0 → pos + rest.length = E →
      ginTreeNodeAPIPathRE.replaceAllFrom apiPathTemplate src pos E rest = [] := by
  intro rest
  induction rest with
  | nil => intro pos h _; simp [Regex.replaceAllFrom, matchAt_pos pos h]
  | cons x xs ih =>
    intro pos h hE
    have hlt : pos < E := by simp only [List.length_cons] at hE; omega
    simp only [Regex.replaceAllFrom, hlt, if_true]
    exact ih (pos + 1) (by omega) (by simp only [List.length_cons] at hE; omega)

/-- One test and one replacement of the loop, for a path that starts with `/`
and has no line feed. -/
theorem rewrite_step (t : List Char) (hfree : lineFeedFree t) :
    match replaceLastMarker t with
    | none => ginTreeNodeAPIPathRE.MatchString (String.mk ('/' :: t)) = false
    | some r => ginTreeNodeAPIPathRE.MatchString (String.mk ('/' :: t)) = true ∧
        ginTreeNodeAPIPathRE.ReplaceAllString (String.mk ('/' :: t)) apiPathTemplate =
          String.mk ('/' :: r) := by
  have key := starGreedy_afterPrefix ('/' :: t) t ['/'] hfree rfl
  rcases hrep : replaceLastMarker t with _ | r
  · rw [hrep] at key
    simp only at key ⊢
    simp only [List.length_singleton] at key
    simp [Regex.MatchString, Regex.search, matchAt_zero_slash, key, search_pos 1 (by decide)]
  · rw [hrep] at key
    simp only at key ⊢
    obtain ⟨st, h1, h2, h3⟩ := key
    simp only [List.length_singleton] at h1
    have hm : ginTreeNodeAPIPathRE.matchAt 0 ('/' :: t) = some st := by
      rw [matchAt_zero_slash]; exact h1
    constructor
    · simp [Regex.MatchString, Regex.search, hm]
    · have hpos : st.pos > 0 := by rw [h2]; simp
      have hin := replaceAllFrom_inside ('/' :: t) st.pos t 1 (by decide)
        (by rw [h2]; simp only [List.length_cons]; omega)
      simp only [Regex.ReplaceAllString, Regex.replaceAllFrom, hm]
      simp [hpos, hin, h3]

theorem isMarker_not_word (c : Char) (h : isMarker c = true) : isWordChar c = false := by
  have hc : c = ':' ∨ c = '|' ∨ c = '*' := by
    simpa [isMarker, CharMatcher.test] using h
  rcases hc with rfl | rfl | rfl <;> decide

theorem word_not_marker (c : Char) (h : isWordChar c = true) : isMarker c = false := by
  cases hm : isMarker c with
  | false => rfl
  | true => rw [isMarker_not_word c hm] at h; cases h

theorem startsWithWord_replaceLastMarker (xs r : List Char)
    (h : replaceLastMarker xs = some r) : startsWithWord r = startsWithWord xs := by
  cases xs with
  | nil => simp [replaceLastMarker] at h
  | cons x xs =>
    simp only [replaceLastMarker] at h
    rcases hrep : replaceLastMarker xs with _ | r1
    · rw [hrep] at h
      simp only at h
      by_cases hm : (isMarker x && startsWithWord xs) = true
      · simp only [hm, if_true, Option.some.injEq] at h
        subst h
        have hx := isMarker_not_word x (Bool.and_eq_true_iff.mp hm).1
        simp only [startsWithWord, hx, List.cons_append]
        decide
      · simp [hm] at h
    · rw [hrep] at h
      simp only [Option.some.injEq] at h
      subst h
      rfl

theorem markerCount_word_append (name rest : List Char)
    (hn : ∀ c ∈ name, isWordChar c = true) :
    markerCount (name ++ rest) = markerCount rest := by
  induction name with
  | nil => rfl
  | cons x xs ih =>
    have hx := word_not_marker x (hn x (List.mem_cons_self _ _))
    have ih' := ih (fun c hc => hn c (List.mem_cons_of_mem _ hc))
    show (if (isMarker x && startsWithWord (xs ++ rest)) = true then 1 else 0) +
      markerCount (xs ++ rest) = markerCount rest
    rw [ih', hx]
    simp

theorem markerCount_takeWhile_dropWhile (xs : List Char) :
    markerCount (xs.dropWhile isWordChar) = markerCount xs := by
  have h := markerCount_word_append (xs.takeWhile isWordChar) (xs.dropWhile isWordChar)
    (fun c hc => (List.mem_takeWhile_imp hc))
  rw [List.takeWhile_append_dropWhile] at h
  exact h.symm

theorem replaceLastMarker_none_iff (t : List Char) :
    replaceLastMarker t = none ↔ markerCount t = 0 := by
  induction t with
  | nil => simp [replaceLastMarker, markerCount]
  | cons x xs ih =>
    simp only [replaceLastMarker, markerCount]
    rcases hrep : replaceLastMarker xs with _ | r
    · have h0 : markerCount xs = 0 := ih.mp hrep
      by_cases hm : (isMarker x && startsWithWord xs) = true
      · simp [hm]
      · simp [hm, h0]
    · have h0 : markerCount xs ≠ 0 := fun h => by
        rw [ih.mpr h] at hrep
        cases hrep
      constructor
      · intro h
        cases h
      · intro h
        omega

theorem markerCount_replaceLastMarker (t r : List Char) (h : replaceLastMarker t = some r) :
    markerCount r + 1 = markerCount t := by
  induction t generalizing r with
  | nil => simp [replaceLastMarker] at h
  | cons x xs ih =>
    simp only [replaceLastMarker] at h
    rcases hrep : replaceLastMarker xs with _ | r1
    · rw [hrep] at h
      simp only at h
      have h0 : markerCount xs = 0 := (replaceLastMarker_none_iff xs).mp hrep
      by_cases hm : (isMarker x && startsWithWord xs) = true
      · simp only [hm, if_true, Option.some.injEq] at h
        subst h
        have hb : markerCount (Char.ofNat 123 :: (xs.takeWhile isWordChar ++
            Char.ofNat 125 :: xs.dropWhile isWordChar)) = 0 := by
          have h1 : isMarker (Char.ofNat 123) = false := by decide
          have h2 : isMarker (Char.ofNat 125) = false := by decide
          simp only [markerCount, h1, Bool.false_and]
          rw [markerCount_word_append _ _ (fun c hc => List.mem_takeWhile_imp hc)]
          simp only [markerCount, h2, Bool.false_and]
          rw [markerCount_takeWhile_dropWhile, h0]
          simp
        have hb' : markerCount (Char.ofNat 123 :: xs.takeWhile isWordChar ++
            Char.ofNat 125 :: xs.dropWhile isWordChar) = 0 := hb
        rw [hb']
        simp [markerCount, hm, h0]
      · simp [hm] at h
    · rw [hrep] at h
      simp only [Option.some.injEq] at h
      subst h
      have ih' := ih r1 hrep
      simp only [markerCount]
      rw [startsWithWord_replaceLastMarker xs r1 hrep]
      omega

theorem rewriteMarkers_of_markerCount_zero (l : List Char) (h : markerCount l = 0) :
    rewriteMarkers l = l := by
  induction l with
  | nil => rfl
  | cons x xs ih =>
    simp only [markerCount] at h
    have h1 : markerCount xs = 0 := by omega
    have h2 : (isMarker x && startsWithWord xs) = false := Bool.eq_false_iff.mpr fun hm => by
      simp [hm] at h
    simp [rewriteMarkers, h2, ih h1]

theorem rewriteMarkers_replaceLastMarker (t r : List Char) (h : replaceLastMarker t = some r) :
    rewriteMarkers r = rewriteMarkers t := by
  induction t generalizing r with
  | nil => simp [replaceLastMarker] at h
  | cons x xs ih =>
    simp only [replaceLastMarker] at h
    rcases hrep : replaceLastMarker xs with _ | r1
    · rw [hrep] at h
      simp only at h
      have h0 : markerCount xs = 0 := (replaceLastMarker_none_iff xs).mp hrep
      by_cases hm : (isMarker x && startsWithWord xs) = true
      · have hr0 : markerCount r = 0 := by
          have := markerCount_replaceLastMarker (x :: xs) r (by
            simp only [replaceLastMarker, hrep]; exact h)
          simp only [markerCount, hm, if_true, h0] at this
          omega
        simp only [hm, if_true, Option.some.injEq] at h
        rw [rewriteMarkers_of_markerCount_zero r hr0]
        simp only [rewriteMarkers, hm, if_true]
        rw [rewriteMarkers_of_markerCount_zero xs h0]
        exact h.symm
      · simp [hm] at h
    · rw [hrep] at h
      simp only [Option.some.injEq] at h
      subst h
      simp only [rewriteMarkers]
      rw [startsWithWord_replaceLastMarker xs r1 hrep, ih r1 hrep]

theorem lineFeedFree_replaceLastMarker (t r : List Char) (h : replaceLastMarker t = some r)
    (hfree : lineFeedFree t) : lineFeedFree r := by
  induction t generalizing r with
  | nil => simp [replaceLastMarker] at h
  | cons x xs ih =>
    have hx : CharMatcher.any.test x = true := hfree x (List.mem_cons_self _ _)
    have hxs : lineFeedFree xs := fun y hy => hfree y (List.mem_cons_of_mem _ hy)
    simp only [replaceLastMarker] at h
    rcases hrep : replaceLastMarker xs with _ | r1
    · rw [hrep] at h
      simp only at h
      by_cases hm : (isMarker x && startsWithWord xs) = true
      · simp only [hm, if_true, Option.some.injEq] at h
        subst h
        intro y hy
        simp only [List.cons_append, List.mem_cons, List.mem_append] at hy
        rcases hy with rfl | hy | rfl | hy
        · decide
        · exact hxs y ((List.takeWhile_prefix isWordChar).subset hy)
        · decide
        · exact hxs y ((List.dropWhile_suffix isWordChar).subset hy)
      · simp [hm] at h
    · rw [hrep] at h
      simp only [Option.some.injEq] at h
      subst h
      intro y hy
      rcases List.mem_cons.mp hy with rfl | hy
      · exact hx
      · exact ih r1 hrep hxs y hy

theorem markerCount_le_length (t : List Char) : markerCount t ≤ t.length := by
  induction t with
  | nil => simp [markerCount]
  | cons x xs ih =>
    simp only [markerCount, List.length_cons]
    split <;> omega

/-- The loop on a path that starts with `/` and has no line feed, with more
iterations allowed than the path has markers followed by a word character. -/
theorem rewriteLoop_slash :
    ∀ (fuel : Nat) (t : List Char), lineFeedFree t → markerCount t < fuel →
      rewriteLoop fuel (String.mk ('/' :: t)) = some (String.mk ('/' :: rewriteMarkers t)) := by
  intro fuel
  induction fuel with
  | zero => intro t _ h; omega
  | succ fuel ih =>
    intro t hfree hlt
    have step := rewrite_step t hfree
    rcases hrep : replaceLastMarker t with _ | r
    · rw [hrep] at step
      simp only at step
      have h0 : markerCount t = 0 := (replaceLastMarker_none_iff t).mp hrep
      simp [rewriteLoop, step, rewriteMarkers_of_markerCount_zero t h0]
    · rw [hrep] at step
      simp only at step
      have hc := markerCount_replaceLastMarker t r hrep
      simp only [rewriteLoop, step.1, if_true, step.2]
      rw [ih r (lineFeedFree_replaceLastMarker t r hrep hfree) (by omega),
        rewriteMarkers_replaceLastMarker t r hrep]

/-- For every path that starts with `/` and has no line feed, the rewrite loop
of `APIs` ends within its bound, and it yields the path with every marker
(colon, bar or star) that is followed by a word character replaced, together
with its word, by the word in braces, all other characters unchanged. -/
theorem apiPath_eq_rewriteMarkers (path : String) (t : List Char)
    (h : path.toList = '/' :: t) (hfree : lineFeedFree t) :
    apiPath path = some (String.mk ('/' :: rewriteMarkers t)) := by
  have hp : path = String.mk ('/' :: t) := by
    rw [← h]
    rfl
  have hlen : path.length = t.length + 1 := by
    rw [hp]; simp [String.length]
  unfold apiPath
  rw [hlen, hp]
  exact rewriteLoop_slash _ t hfree (by
    have := markerCount_le_length t
    omega)

theorem rewriteMarkers_eq_rewriteParams (t : List Char) (h : '|' ∉ t) :
    rewriteMarkers t = rewriteParams t := by
  induction t with
  | nil => rfl
  | cons x xs ih =>
    have hx : x ≠ '|' := fun e => h (e ▸ List.mem_cons_self _ _)
    have hxs : '|' ∉ xs := fun e => h (List.mem_cons_of_mem _ e)
    have hm : isMarker x = isParamMarker x := by
      simp [isMarker, isParamMarker, CharMatcher.test, hx]
      rfl
    simp only [rewriteMarkers, rewriteParams, hm, ih hxs]

/-- For every path that starts with `/` and has neither a line feed nor a bar,
the rewrite loop of `APIs` ends within its bound and yields the path with
every `:name` and `*name` replaced by the name in braces, all other characters
unchanged. -/
theorem apiPath_without_bar (path : String) (t : List Char)
    (h : path.toList = '/' :: t) (hfree : lineFeedFree t) (hbar : '|' ∉ t) :
    apiPath path = some (String.mk ('/' :: rewriteParams t)) := by
  rw [apiPath_eq_rewriteMarkers path t h hfree, rewriteMarkers_eq_rewriteParams t hbar]

/-- C13: the route path `/a|b` starts with `/` and has no `:name` or `*name`
segment, yet the rewrite loop of `APIs` does not return it unchanged: the
class `[:|*]` of the regular expression also takes the bar, so the path is
reported as `/a{b}`. -/
theorem apiPath_rewrites_bar_as_parameter :
    ginTreeNodeAPIPathRE.MatchString "/a|b" = true ∧
    apiPath "/a|b" = some "/a\x7bb\x7d" ∧
    apiPath "/a|b" ≠ some "/a|b" ∧
    APIs [{ Method := "GET", Path := "/a|b", Handler := "main.listDocs" }] =
      some [("/a\x7bb\x7d", "GET", "main.listDocs")] := by
  refine ⟨?_, ?_, ?_, ?_⟩ <;> decide

end Livingkit
